import Mathlib

/-!
# Verification of the apigee-adk-workshop MCP tool core

Shallow embedding, in Lean 4, of the spec-to-tool compiler and the tool
execution runtime of the repository (`src/build/api.js` and
`src/build/mcp_api_executor.js`), together with proofs settling the frozen
claims about it.

Modelling conventions:
* JavaScript values flowing through the compiler are parsed YAML/JSON
  documents; they are represented by the `Json` inductive below.  Object
  fields are kept as an association list in insertion order, matching the
  enumeration order of plain JS objects produced by `js-yaml`.
  Prototype-inherited keys (`toString`, ...) are not modelled; only own
  keys are visible, plus an array's own `length` property.
* Network effects (axios calls) are modelled by passing the outcome of the
  call as an explicit argument (`TokenExchangeOutcome`, `ApiOutcome`) and
  `Date.now()` by an explicit `now : Int` (milliseconds).
* JS exceptions are modelled with `Except`/`Option` results.
-/

/-- JavaScript/JSON value, as produced by `yaml.load` on a spec document.
Numbers are modelled as `Int`: none of the verified properties depends on
fractional values. -/
inductive Json where
  | null : Json
  | bool : Bool → Json
  | num : Int → Json
  | str : String → Json
  | arr : List Json → Json
  | obj : List (String × Json) → Json

/-- JS truthiness of a value (`!!v`).  `undefined` is represented by the
absence of a value (`Option.none`) at use sites, never by a `Json`
constructor. -/
def truthy : Json → Bool
  | Json.null => false
  | Json.bool b => b
  | Json.num n => n != 0
  | Json.str s => s != ""
  | Json.arr _ => true
  | Json.obj _ => true

/-- First binding of key `k` in an association list (JS objects cannot hold
duplicate keys, so first = only). -/
def lookupField : List (String × Json) → String → Option Json
  | [], _ => none
  | (k', v) :: rest, k => if k' == k then some v else lookupField rest k

/-- `j[k]` for own keys of a JS object; `none` plays the role of
`undefined`. -/
def getField : Json → String → Option Json
  | Json.obj fs, k => lookupField fs k
  | _, _ => none

/-- `k in j` (own keys only, see module comment). -/
def hasField (j : Json) (k : String) : Bool :=
  (getField j k).isSome

/-- `j[k]` is present and truthy (JS `if (j.k)`). -/
def truthyField (j : Json) (k : String) : Bool :=
  match getField j k with
  | some v => truthy v
  | none => false

/-- `j.k` when it is a truthy string; used to model `a.b || c` chains whose
values are strings in every well-formed document. -/
def getStrTruthy (j : Json) (k : String) : Option String :=
  match getField j k with
  | some (Json.str s) => if s == "" then none else some s
  | _ => none

/-- Fields of an object; empty for every other value (a JS `for..in` loop
over a non-object value of these shapes iterates zero times). -/
def objFields : Json → List (String × Json)
  | Json.obj fs => fs
  | _ => []

/-- Elements when the value is an array. -/
def asArr : Json → Option (List Json)
  | Json.arr xs => some xs
  | _ => none

/-- JS strict equality `v === s` against a known string literal. -/
def jsonStrictEqStr : Json → String → Bool
  | Json.str t, s => t == s
  | _, _ => false

/-- Canonical array-index string: `"0"`, `"13"`, ... without leading zeros
(the form under which JS exposes array elements as properties). -/
def isCanonicalIndex (s : String) : Bool :=
  s.data.all Char.isDigit && s != "" && (s == "0" || s.data.head? != some '0')

/-- Numeric value of a digit string. -/
def digitsToNat (l : List Char) : Nat :=
  l.foldl (fun acc c => acc * 10 + (c.toNat - '0'.toNat)) 0

/-- Property lookup as performed by `current[decodedSegment]` after a
`decodedSegment in current` check in the resolver: object own keys, array
numeric indices and the array `length` property. -/
def jsGet : Json → String → Option Json
  | Json.obj fs, k => lookupField fs k
  | Json.arr xs, k =>
      if k == "length" then some (Json.num (Int.ofNat xs.length))
      else if isCanonicalIndex k then xs.get? (digitsToNat k.data)
      else none
  | _, _ => none

/-- `typeof v === 'object'` (`null` included, primitives excluded). -/
def isTypeofObject : Json → Bool
  | Json.obj _ => true
  | Json.arr _ => true
  | Json.null => true
  | _ => false

/-- A node on which property traversal may continue
(`current !== null && typeof current === 'object'`). -/
def indexable : Json → Bool
  | Json.obj _ => true
  | Json.arr _ => true
  | _ => false

/-! ## Percent decoding (`decodeURIComponent`)

`decodeURIComponent` is modelled byte-exactly: `%HH` pairs become bytes,
any other character contributes its UTF-8 byte sequence, and the resulting
byte string must be valid UTF-8, otherwise the JS function raises
`URIError` — modelled as `none` (the resolver catches the exception and
returns not-found). -/

/-- Value of a hex digit. -/
def hexDigitVal (c : Char) : Option Nat :=
  if '0' ≤ c ∧ c ≤ '9' then some (c.toNat - '0'.toNat)
  else if 'a' ≤ c ∧ c ≤ 'f' then some (c.toNat - 'a'.toNat + 10)
  else if 'A' ≤ c ∧ c ≤ 'F' then some (c.toNat - 'A'.toNat + 10)
  else none

/-- UTF-8 encoding of a Unicode scalar value, as a byte list. -/
def utf8EncodeNat (c : Nat) : List Nat :=
  if c < 0x80 then [c]
  else if c < 0x800 then [0xC0 + c / 0x40, 0x80 + c % 0x40]
  else if c < 0x10000 then
    [0xE0 + c / 0x1000, 0x80 + c / 0x40 % 0x40, 0x80 + c % 0x40]
  else
    [0xF0 + c / 0x40000, 0x80 + c / 0x1000 % 0x40, 0x80 + c / 0x40 % 0x40,
      0x80 + c % 0x40]

/-- Percent-unescape a character list into bytes; fails on a malformed
`%` escape. -/
def percentBytes : List Char → Option (List Nat)
  | [] => some []
  | '%' :: h :: l :: rest => do
      let hv ← hexDigitVal h
      let lv ← hexDigitVal l
      let tail ← percentBytes rest
      pure ((hv * 16 + lv) :: tail)
  | '%' :: _ => none
  | c :: rest => do
      let tail ← percentBytes rest
      pure (utf8EncodeNat c.toNat ++ tail)

/-- Is `b` a UTF-8 continuation byte, and if so its payload. -/
def contByte (b : Nat) : Option Nat :=
  if 0x80 ≤ b ∧ b < 0xC0 then some (b - 0x80) else none

/-- Decode a UTF-8 byte list into scalar values; rejects malformed,
overlong, surrogate and out-of-range sequences, as `decodeURIComponent`
does. -/
def utf8DecodeBytes : List Nat → Option (List Nat)
  | [] => some []
  | b :: rest =>
    if b < 0x80 then do
      let tail ← utf8DecodeBytes rest
      pure (b :: tail)
    else if b < 0xC2 then none
    else if b < 0xE0 then
      match rest with
      | b1 :: rest1 => do
          let p1 ← contByte b1
          let tail ← utf8DecodeBytes rest1
          pure (((b - 0xC0) * 0x40 + p1) :: tail)
      | _ => none
    else if b < 0xF0 then
      match rest with
      | b1 :: b2 :: rest2 => do
          let p1 ← contByte b1
          let p2 ← contByte b2
          let c := (b - 0xE0) * 0x1000 + p1 * 0x40 + p2
          if c < 0x800 ∨ (0xD800 ≤ c ∧ c ≤ 0xDFFF) then none
          else do
            let tail ← utf8DecodeBytes rest2
            pure (c :: tail)
      | _ => none
    else if b < 0xF5 then
      match rest with
      | b1 :: b2 :: b3 :: rest3 => do
          let p1 ← contByte b1
          let p2 ← contByte b2
          let p3 ← contByte b3
          let c := (b - 0xF0) * 0x40000 + p1 * 0x1000 + p2 * 0x40 + p3
          if c < 0x10000 ∨ 0x10FFFF < c then none
          else do
            let tail ← utf8DecodeBytes rest3
            pure (c :: tail)
      | _ => none
    else none

/-- `decodeURIComponent`: `none` models a raised `URIError`. -/
def decodeURIComponent (s : String) : Option String := do
  let bytes ← percentBytes s.data
  let scalars ← utf8DecodeBytes bytes
  pure (String.mk (scalars.map Char.ofNat))

/-! ## Reference Resolver (`resolveReference`, api.js lines 527-558) -/

/-- `segment.replace(/~1/g, '/')`: global left-to-right non-overlapping
replacement of the two-character pattern. -/
def unescapeSlash : List Char → List Char
  | '~' :: '1' :: rest => '/' :: unescapeSlash rest
  | c :: rest => c :: unescapeSlash rest
  | [] => []

/-- `….replace(/~0/g, '~')`. -/
def unescapeTildeChar : List Char → List Char
  | '~' :: '0' :: rest => '~' :: unescapeTildeChar rest
  | c :: rest => c :: unescapeTildeChar rest
  | [] => []

/-- JSON-Pointer unescaping followed by percent decoding, exactly as in
`decodeURIComponent(segment.replace(/~1/g, '/').replace(/~0/g, '~'))`. -/
def decodeSegment (seg : String) : Option String :=
  decodeURIComponent (String.mk (unescapeTildeChar (unescapeSlash seg.data)))

/-- `s.split(c)` on a character list (JS `String.prototype.split` with a
single-character separator: `"".split('/') = [""]`, trailing separators
produce trailing empty groups). -/
def splitChar (c : Char) : List Char → List (List Char)
  | [] => [[]]
  | x :: rest =>
      let r := splitChar c rest
      if x = c then [] :: r
      else
        match r with
        | [] => [[x]]
        | g :: gs => (x :: g) :: gs

/-- `ref.startsWith('#/')`. -/
def refIsLocal (ref : String) : Bool :=
  match ref.data with
  | '#' :: '/' :: _ => true
  | _ => false

/-- One traversal step: decode the raw segment, then look it up; `none`
covers both a failed decode (caught `URIError`) and an absent key. -/
def lookupDecoded (cur : Json) (seg : String) : Option Json :=
  (decodeSegment seg).bind (jsGet cur)

/-- The resolver's loop over the split pointer segments. -/
def resolveSegs : Json → List String → Option Json
  | cur, [] => some cur
  | cur, seg :: rest =>
      if indexable cur then
        match lookupDecoded cur seg with
        | some next => resolveSegs next rest
        | none => none
      else none

/-- `ref.substring(2).split('/')`: the raw pointer segments. -/
def pointerSegments (ref : String) : List String :=
  (splitChar '/' (ref.data.drop 2)).map String.mk

/-- `resolveReference(spec, ref)`: resolves a local `$ref` pointer; `none`
is the not-found result (the source returns `null` and never lets an
exception escape: the only throwing operation, `decodeURIComponent`, is
wrapped in `try`/`catch`). -/
def resolveReference (spec : Json) (ref : String) : Option Json :=
  if refIsLocal ref then resolveSegs spec (pointerSegments ref)
  else none

/-! ## Zod type values

The Zod schema objects built by the mapper are represented by the
`ZodType` inductive.  `.describe` replaces the stored description on the
same instance in Zod v3, hence the smart constructor `describeZ`;
`.optional()` wraps in a new `ZodOptional`, hence a plain constructor. -/

/-- String refinements attached by the mapper, in application order. -/
inductive StrCheck where
  | datetime : StrCheck
  | email : StrCheck
  | uuid : StrCheck
  | minLen : Int → StrCheck
  | maxLen : Int → StrCheck
  | pattern : String → StrCheck

/-- The subset of Zod v3 types produced by `mapOpenApiTypeToZod`. -/
inductive ZodType where
  | anyT : ZodType
  | strT : List StrCheck → ZodType
  | enumT : List String → ZodType
  | intT : ZodType
  | numT : ZodType
  | boolT : ZodType
  | nullT : ZodType
  | arrayT : ZodType → Option Int → Option Int → ZodType
  | objectT : List (String × ZodType) → Bool → ZodType
  | recordT : ZodType → ZodType
  | unionT : List ZodType → ZodType
  | optionalT : ZodType → ZodType
  | describeT : ZodType → String → ZodType

/-- `t.describe(d)`: replaces an existing description. -/
def describeZ : ZodType → String → ZodType
  | ZodType.describeT inner _, d => ZodType.describeT inner d
  | t, d => ZodType.describeT t d

/-- The underlying instance for `instanceof` checks: a description is
metadata on the same instance, not a wrapper class. -/
def unwrapDesc : ZodType → ZodType
  | ZodType.describeT t _ => unwrapDesc t
  | t => t

/-- `v instanceof z.ZodNull`. -/
def isZodNullInst (t : ZodType) : Bool :=
  match unwrapDesc t with
  | ZodType.nullT => true
  | _ => false

/-- `zodType instanceof z.ZodUnion && zodType.options.some(o => o instanceof
z.ZodNull) || zodType instanceof z.ZodNull` (the mapper's
`isAlreadyNullable`). -/
def isAlreadyNullable (t : ZodType) : Bool :=
  match unwrapDesc t with
  | ZodType.unionT ms => ms.any isZodNullInst
  | ZodType.nullT => true
  | _ => false

/-! ## Identifier sanitizer (`sanitizeForMethodName`, api.js lines 560-564) -/

/-- `[a-zA-Z0-9_]` (ASCII word character). -/
def isWordChar (c : Char) : Bool :=
  ('a' ≤ c ∧ c ≤ 'z') ∨ ('A' ≤ c ∧ c ≤ 'Z') ∨ ('0' ≤ c ∧ c ≤ '9') ∨ c = '_'

/-- `input.replace(/[^a-zA-Z0-9_]+/g, '_')`: each maximal run of non-word
characters becomes a single underscore.  The flag records whether the
previous character belonged to such a run. -/
def collapseRuns (inRun : Bool) : List Char → List Char
  | [] => []
  | c :: rest =>
    if isWordChar c then c :: collapseRuns false rest
    else if inRun then collapseRuns true rest
    else '_' :: collapseRuns true rest

/-- Remove a maximal trailing run of underscores (`/_+$/`). -/
def dropTrailingUnderscores : List Char → List Char
  | [] => []
  | c :: rest =>
    match dropTrailingUnderscores rest with
    | [] => if c = '_' then [] else [c]
    | r => c :: r

/-- `sanitizeForMethodName` from the source: collapse non-word runs to
single underscores, then strip leading and trailing underscores
(`/^_+|_+$/g`). -/
def sanitizeForMethodName (input : String) : String :=
  String.mk
    (dropTrailingUnderscores
      ((collapseRuns false input.data).dropWhile (· = '_')))

/-! ## Termination infrastructure for the schema mapper

The mapper recurses through `$ref` resolution, which can jump to an
arbitrary node of the document, so the recursion is not structural.  It
terminates because each `$ref` descent strictly shrinks the finite set of
reference strings not yet on the current path, and every other descent
strictly shrinks the node.  The measures below make that precise. -/

mutual

/-- Size of a value. -/
def jsize : Json → Nat
  | Json.null => 1
  | Json.bool _ => 1
  | Json.num _ => 1
  | Json.str _ => 1
  | Json.arr xs => 1 + jsizeL xs
  | Json.obj fs => 1 + jsizeF fs

/-- Size of an element list. -/
def jsizeL : List Json → Nat
  | [] => 0
  | x :: xs => 1 + jsize x + jsizeL xs

/-- Size of a field list. -/
def jsizeF : List (String × Json) → Nat
  | [] => 0
  | (_, v) :: fs => 1 + jsize v + jsizeF fs

end

/-- Field-list entries other than the `type` binding. -/
def notTypeKey (kv : String × Json) : Bool :=
  kv.1 != "type"

/-- Size of a node ignoring its top-level `type` field (which the mapper
rewrites in place when it re-dispatches). -/
def sizeExclType : Json → Nat
  | Json.obj fs => 1 + jsizeF (fs.filter notTypeKey)
  | j => jsize j

/-- Rank of the `type` field, strictly decreasing along the mapper's
`{...schema, type: t}` re-dispatches: absent (3) → falsy value
(2·size + 1) → proper value (2·size). -/
def typeRank (j : Json) : Nat :=
  match getField j "type" with
  | none => 3
  | some v => 2 * jsize v + (if truthy v then 0 else 1)

/-- The reference strings `{r}` of a `"$ref": r` binding. -/
def strRefSet : Json → Finset String
  | Json.str r => {r}
  | _ => ∅

mutual

/-- Every string appearing as the value of a `$ref` key anywhere in the
value. -/
def allRefs : Json → Finset String
  | Json.null => ∅
  | Json.bool _ => ∅
  | Json.num _ => ∅
  | Json.str _ => ∅
  | Json.arr xs => allRefsL xs
  | Json.obj fs => allRefsF fs

def allRefsL : List Json → Finset String
  | [] => ∅
  | x :: xs => allRefs x ∪ allRefsL xs

def allRefsF : List (String × Json) → Finset String
  | [] => ∅
  | (k, v) :: fs =>
      (if k = "$ref" then strRefSet v else ∅) ∪ allRefs v ∪ allRefsF fs

end

/-- First lexicographic component of the mapper's measure: references of
the document or the current node that are not yet on the visited path. -/
def refsLeft (spec node : Json) (visited : List String) : Nat :=
  ((allRefs spec ∪ allRefs node).filter (fun r => r ∉ visited)).card

theorem jsize_pos (j : Json) : 1 ≤ jsize j := by
  cases j <;> simp [jsize]

theorem lookupField_mem {fs : List (String × Json)} {k : String} {v : Json}
    (h : lookupField fs k = some v) : (k, v) ∈ fs := by
  induction fs with
  | nil => simp [lookupField] at h
  | cons kv rest ih =>
    obtain ⟨k', v'⟩ := kv
    by_cases hk : (k' == k) = true
    · rw [lookupField, if_pos hk] at h
      cases h
      have : k' = k := eq_of_beq hk
      subst this
      exact List.mem_cons_self _ _
    · rw [lookupField, if_neg hk] at h
      exact List.mem_cons_of_mem _ (ih h)

theorem jsize_lt_of_mem_fields {fs : List (String × Json)} {k : String}
    {v : Json} (h : (k, v) ∈ fs) : jsize v < jsizeF fs := by
  induction fs with
  | nil => cases h
  | cons kv rest ih =>
    rcases List.mem_cons.mp h with h' | h'
    · cases h'
      simp only [jsizeF]
      omega
    · obtain ⟨k'', v''⟩ := kv
      simp only [jsizeF]
      have := ih h'
      omega

theorem jsize_lt_of_mem_list {xs : List Json} {x : Json} (h : x ∈ xs) :
    jsize x < jsizeL xs := by
  induction xs with
  | nil => cases h
  | cons y rest ih =>
    rcases List.mem_cons.mp h with h' | h'
    · subst h'
      simp only [jsizeL]
      omega
    · simp only [jsizeL]
      have := ih h'
      omega

theorem jsizeF_filter_le (p : String × Json → Bool)
    (fs : List (String × Json)) : jsizeF (fs.filter p) ≤ jsizeF fs := by
  induction fs with
  | nil => simp [jsizeF]
  | cons kv rest ih =>
    by_cases hp : p kv = true
    · simp only [List.filter_cons, hp, if_pos]
      obtain ⟨k, v⟩ := kv
      simp only [jsizeF]
      omega
    · simp only [List.filter_cons, hp]
      simp only [Bool.false_eq_true, if_false]
      obtain ⟨k, v⟩ := kv
      simp only [jsizeF]
      omega

theorem jsizeL_filter_le (p : Json → Bool) (xs : List Json) :
    jsizeL (xs.filter p) ≤ jsizeL xs := by
  induction xs with
  | nil => simp [jsizeL]
  | cons x rest ih =>
    by_cases hp : p x = true
    · simp only [List.filter_cons, hp, if_pos]
      simp only [jsizeL]
      omega
    · simp only [List.filter_cons, hp]
      simp only [Bool.false_eq_true, if_false]
      simp only [jsizeL]
      omega

theorem sizeExclType_le_jsize (j : Json) : sizeExclType j ≤ jsize j := by
  cases j with
  | obj fs =>
    simp only [sizeExclType, jsize]
    have := jsizeF_filter_le notTypeKey fs
    omega
  | null => exact Nat.le_refl _
  | bool b => exact Nat.le_refl _
  | num n => exact Nat.le_refl _
  | str s => exact Nat.le_refl _
  | arr xs => exact Nat.le_refl _

theorem jsize_lt_sizeExclType_of_lookup {fs : List (String × Json)}
    {k : String} {v : Json} (h : lookupField fs k = some v)
    (hk : k ≠ "type") : jsize v < sizeExclType (Json.obj fs) := by
  have hm : (k, v) ∈ fs.filter notTypeKey :=
    List.mem_filter.mpr ⟨lookupField_mem h, by simpa [notTypeKey] using hk⟩
  have := jsize_lt_of_mem_fields hm
  simp only [sizeExclType]
  omega

theorem getField_obj {j : Json} {k : String} {v : Json}
    (h : getField j k = some v) :
    ∃ fs, j = Json.obj fs ∧ lookupField fs k = some v := by
  cases j <;> simp [getField] at h ⊢
  exact h

theorem jsize_lt_sizeExclType_of_getField {j : Json} {k : String} {v : Json}
    (h : getField j k = some v) (hk : k ≠ "type") :
    jsize v < sizeExclType j := by
  obtain ⟨fs, rfl, hl⟩ := getField_obj h
  exact jsize_lt_sizeExclType_of_lookup hl hk

theorem allRefs_sub_of_mem_fields {fs : List (String × Json)} {k : String}
    {v : Json} (h : (k, v) ∈ fs) : allRefs v ⊆ allRefsF fs := by
  induction fs with
  | nil => cases h
  | cons kv rest ih =>
    rcases List.mem_cons.mp h with h' | h'
    · cases h'
      intro x hx
      simp only [allRefsF, Finset.mem_union]
      tauto
    · intro x hx
      obtain ⟨k'', v''⟩ := kv
      simp only [allRefsF, Finset.mem_union]
      exact Or.inr (ih h' hx)

theorem allRefs_sub_of_mem_list {xs : List Json} {x : Json} (h : x ∈ xs) :
    allRefs x ⊆ allRefsL xs := by
  induction xs with
  | nil => cases h
  | cons y rest ih =>
    rcases List.mem_cons.mp h with h' | h'
    · subst h'
      intro z hz
      simp only [allRefsL, Finset.mem_union]
      tauto
    · intro z hz
      simp only [allRefsL, Finset.mem_union]
      exact Or.inr (ih h' hz)

theorem allRefs_sub_of_getField {j : Json} {k : String} {v : Json}
    (h : getField j k = some v) : allRefs v ⊆ allRefs j := by
  obtain ⟨fs, rfl, hl⟩ := getField_obj h
  simpa [allRefs] using allRefs_sub_of_mem_fields (lookupField_mem hl)

theorem mem_allRefsF_of_lookup {fs : List (String × Json)} {r : String}
    (h : lookupField fs "$ref" = some (Json.str r)) : r ∈ allRefsF fs := by
  induction fs with
  | nil => simp [lookupField] at h
  | cons kv rest ih =>
    obtain ⟨k', v'⟩ := kv
    by_cases hk : (k' == "$ref") = true
    · rw [lookupField, if_pos hk] at h
      cases h
      have : k' = "$ref" := eq_of_beq hk
      subst this
      simp [allRefsF, strRefSet]
    · rw [lookupField, if_neg hk] at h
      simp only [allRefsF, Finset.mem_union]
      exact Or.inr (ih h)

theorem mem_allRefs_of_ref {j : Json} {r : String}
    (h : getField j "$ref" = some (Json.str r)) : r ∈ allRefs j := by
  obtain ⟨fs, rfl, hl⟩ := getField_obj h
  simpa [allRefs] using mem_allRefsF_of_lookup hl

theorem allRefs_sub_of_jsGet {cur : Json} {seg : String} {next : Json}
    (h : jsGet cur seg = some next) : allRefs next ⊆ allRefs cur := by
  cases cur with
  | obj fs =>
    simp only [jsGet] at h
    have := allRefs_sub_of_mem_fields (lookupField_mem h)
    simpa [allRefs] using this
  | arr xs =>
    simp only [jsGet] at h
    by_cases hl : (seg == "length") = true
    · rw [if_pos hl] at h
      cases h
      simp [allRefs]
    · rw [if_neg hl] at h
      by_cases hc : isCanonicalIndex seg = true
      · rw [if_pos hc] at h
        have hmem : next ∈ xs := List.get?_mem h
        simpa [allRefs] using allRefs_sub_of_mem_list hmem
      · rw [if_neg hc] at h
        cases h
  | null => simp [jsGet] at h
  | bool b => simp [jsGet] at h
  | num n => simp [jsGet] at h
  | str s => simp [jsGet] at h

theorem allRefs_sub_of_resolveSegs {segs : List String} {cur m : Json}
    (h : resolveSegs cur segs = some m) : allRefs m ⊆ allRefs cur := by
  induction segs generalizing cur with
  | nil =>
    simp only [resolveSegs] at h
    cases h
    exact Finset.Subset.refl _
  | cons seg rest ih =>
    simp only [resolveSegs] at h
    by_cases hi : indexable cur = true
    · rw [if_pos hi] at h
      cases hl : lookupDecoded cur seg with
      | none => rw [hl] at h; cases h
      | some next =>
        rw [hl] at h
        have h1 := ih h
        have h2 : allRefs next ⊆ allRefs cur := by
          simp only [lookupDecoded, Option.bind] at hl
          cases hd : decodeSegment seg with
          | none => rw [hd] at hl; cases hl
          | some d =>
            rw [hd] at hl
            exact allRefs_sub_of_jsGet hl
        exact Finset.Subset.trans h1 h2
    · rw [if_neg hi] at h
      cases h

theorem allRefs_sub_of_resolveReference {spec : Json} {ref : String}
    {m : Json} (h : resolveReference spec ref = some m) :
    allRefs m ⊆ allRefs spec := by
  simp only [resolveReference] at h
  by_cases hs : refIsLocal ref = true
  · rw [if_pos hs] at h
    exact allRefs_sub_of_resolveSegs h
  · rw [if_neg hs] at h
    cases h

/-! ### `{...schema, type: t}` (field replacement used by the mapper) -/

/-- Replace the `type` binding (keeping its position) or append it, as the
object spread `{...schema, type: t}` does. -/
def setFieldsType (t : Json) : List (String × Json) → List (String × Json)
  | [] => [("type", t)]
  | (k, v) :: fs =>
      if k == "type" then ("type", t) :: fs else (k, v) :: setFieldsType t fs

/-- `{...schema, type: t}`; identity on non-objects (unreachable in the
mapper, which only rewrites object schemas). -/
def setTypeField : Json → Json → Json
  | Json.obj fs, t => Json.obj (setFieldsType t fs)
  | j, _ => j

theorem lookupField_setFieldsType (t : Json) (fs : List (String × Json)) :
    lookupField (setFieldsType t fs) "type" = some t := by
  induction fs with
  | nil => simp [setFieldsType, lookupField]
  | cons kv rest ih =>
    obtain ⟨k, v⟩ := kv
    by_cases hk : (k == "type") = true
    · simp [setFieldsType, hk, lookupField]
    · simp [setFieldsType, hk, lookupField, ih]

theorem getField_setTypeField (fs : List (String × Json)) (t : Json) :
    getField (setTypeField (Json.obj fs) t) "type" = some t := by
  simp [setTypeField, getField, lookupField_setFieldsType]

theorem filter_setFieldsType (t : Json) (fs : List (String × Json)) :
    (setFieldsType t fs).filter notTypeKey = fs.filter notTypeKey := by
  induction fs with
  | nil =>
    have : notTypeKey ("type", t) = false := by simp [notTypeKey]
    simp [setFieldsType, List.filter_cons, this]
  | cons kv rest ih =>
    obtain ⟨k, v⟩ := kv
    by_cases hk : (k == "type") = true
    · have hke : k = "type" := eq_of_beq hk
      subst hke
      have h1 : notTypeKey ("type", t) = false := by simp [notTypeKey]
      have h2 : notTypeKey ("type", v) = false := by simp [notTypeKey]
      simp [setFieldsType, List.filter_cons, h1, h2]
    · have hb : (k == "type") = false := by
        cases hx : (k == "type") with
        | true => exact absurd hx hk
        | false => rfl
      have h1 : notTypeKey (k, v) = true := by simp [notTypeKey, bne, hb]
      simp [setFieldsType, hb, List.filter_cons, h1, ih]

theorem sizeExclType_setTypeField (j t : Json) :
    sizeExclType (setTypeField j t) = sizeExclType j := by
  cases j with
  | obj fs => simp [setTypeField, sizeExclType, filter_setFieldsType]
  | null => rfl
  | bool b => rfl
  | num n => rfl
  | str s => rfl
  | arr xs => rfl

theorem allRefsF_setFieldsType (t : Json) (fs : List (String × Json)) :
    allRefsF (setFieldsType t fs) ⊆ allRefsF fs ∪ allRefs t := by
  induction fs with
  | nil =>
    intro x hx
    simp only [setFieldsType, allRefsF, strRefSet] at hx
    have hne : ¬(("type" : String) = "$ref") := by decide
    simp only [if_neg hne, Finset.empty_union, Finset.union_empty] at hx
    exact Finset.mem_union_right _ hx
  | cons kv rest ih =>
    obtain ⟨k, v⟩ := kv
    by_cases hk : (k == "type") = true
    · have hke : k = "type" := eq_of_beq hk
      subst hke
      intro x hx
      simp only [setFieldsType, beq_self_eq_true, if_pos, allRefsF] at hx
      have hne : ¬(("type" : String) = "$ref") := by decide
      simp only [if_neg hne, Finset.empty_union, Finset.mem_union] at hx
      simp only [allRefsF, if_neg hne, Finset.empty_union, Finset.mem_union]
      tauto
    · have hb : (k == "type") = false := by
        cases hx : (k == "type") with
        | true => exact absurd hx hk
        | false => rfl
      intro x hx
      simp only [setFieldsType, hb, Bool.false_eq_true, if_false,
        allRefsF, Finset.mem_union] at hx
      simp only [allRefsF, Finset.mem_union]
      rcases hx with ((h | h) | h)
      · tauto
      · tauto
      · have := ih h
        simp only [Finset.mem_union] at this
        tauto

theorem allRefs_setTypeField (j t : Json) :
    allRefs (setTypeField j t) ⊆ allRefs j ∪ allRefs t := by
  cases j with
  | obj fs =>
    simp only [setTypeField, allRefs]
    exact allRefsF_setFieldsType t fs
  | null => intro x hx; simp only [setTypeField] at hx; exact Finset.mem_union_left _ hx
  | bool b => intro x hx; simp only [setTypeField] at hx; exact Finset.mem_union_left _ hx
  | num n => intro x hx; simp only [setTypeField] at hx; exact Finset.mem_union_left _ hx
  | str s => intro x hx; simp only [setTypeField] at hx; exact Finset.mem_union_left _ hx
  | arr xs => intro x hx; simp only [setTypeField] at hx; exact Finset.mem_union_left _ hx

/-! ### Cardinality facts for the first measure component -/

theorem cardFilter_le {S T : Finset String} (h : S ⊆ T)
    (visited : List String) :
    (S.filter (fun r => r ∉ visited)).card ≤
      (T.filter (fun r => r ∉ visited)).card :=
  Finset.card_le_card (Finset.filter_subset_filter _ h)

theorem refsLeft_lt_ref {spec node m : Json} {r : String}
    {visited : List String} (hr : r ∈ allRefs node) (hnv : r ∉ visited)
    (hm : allRefs m ⊆ allRefs spec) :
    refsLeft spec m (r :: visited) < refsLeft spec node visited := by
  apply Finset.card_lt_card
  rw [Finset.ssubset_iff_of_subset]
  · refine ⟨r, Finset.mem_filter.mpr ⟨Finset.mem_union_right _ hr, hnv⟩, ?_⟩
    intro hc
    have := (Finset.mem_filter.mp hc).2
    exact this (List.mem_cons_self _ _)
  · intro x hx
    rw [Finset.mem_filter] at hx ⊢
    obtain ⟨hx1, hx2⟩ := hx
    refine ⟨?_, ?_⟩
    · rcases Finset.mem_union.mp hx1 with h | h
      · exact Finset.mem_union_left _ h
      · exact Finset.mem_union_left _ (hm h)
    · intro hv
      exact hx2 (List.mem_cons_of_mem _ hv)

/-! ### Lexicographic helpers for the three-component measure -/

theorem lexNat3_first {a b c a' b' c' : Nat} (h : a < a') :
    Prod.Lex (· < ·) (Prod.Lex (· < ·) (· < ·)) (a, b, c) (a', b', c') :=
  Prod.Lex.left _ _ h

theorem lexNat3_second {a b c a' b' c' : Nat} (h1 : a ≤ a') (h2 : b < b') :
    Prod.Lex (· < ·) (Prod.Lex (· < ·) (· < ·)) (a, b, c) (a', b', c') := by
  rcases Nat.lt_or_ge a a' with h | h
  · exact Prod.Lex.left _ _ h
  · have : a = a' := Nat.le_antisymm h1 h
    subst this
    exact Prod.Lex.right _ (Prod.Lex.left _ _ h2)

theorem lexNat3_third {a b c a' b' c' : Nat} (h1 : a ≤ a') (h2 : b ≤ b')
    (h3 : c < c') :
    Prod.Lex (· < ·) (Prod.Lex (· < ·) (· < ·)) (a, b, c) (a', b', c') := by
  rcases Nat.lt_or_ge a a' with h | h
  · exact Prod.Lex.left _ _ h
  · have : a = a' := Nat.le_antisymm h1 h
    subst this
    rcases Nat.lt_or_ge b b' with h' | h'
    · exact Prod.Lex.right _ (Prod.Lex.left _ _ h')
    · have : b = b' := Nat.le_antisymm h2 h'
      subst this
      exact Prod.Lex.right _ (Prod.Lex.right _ h3)

/-! ### Further subset and size facts used by the termination proof -/

theorem allRefsF_tail_sub (kv : String × Json) (fs : List (String × Json)) :
    allRefsF fs ⊆ allRefsF (kv :: fs) := by
  obtain ⟨k, v⟩ := kv
  intro x hx
  simp only [allRefsF, Finset.mem_union]
  tauto

theorem allRefsL_tail_sub (y : Json) (xs : List Json) :
    allRefsL xs ⊆ allRefsL (y :: xs) := by
  intro x hx
  simp only [allRefsL, Finset.mem_union]
  tauto

theorem allRefsL_filter_sub (p : Json → Bool) (xs : List Json) :
    allRefsL (xs.filter p) ⊆ allRefsL xs := by
  induction xs with
  | nil => simp [allRefsL]
  | cons y rest ih =>
    by_cases hp : p y = true
    · simp only [List.filter_cons, hp, if_pos]
      intro x hx
      simp only [allRefsL, Finset.mem_union] at hx ⊢
      rcases hx with h | h
      · tauto
      · exact Or.inr (ih h)
    · simp only [List.filter_cons, hp, Bool.false_eq_true, if_false]
      exact Finset.Subset.trans ih (allRefsL_tail_sub y rest)

theorem allRefsF_objFields_sub (P : Json) :
    allRefsF (objFields P) ⊆ allRefs P := by
  cases P with
  | obj fs => simp [objFields, allRefs]
  | null => simp [objFields, allRefsF]
  | bool b => simp [objFields, allRefsF]
  | num n => simp [objFields, allRefsF]
  | str s => simp [objFields, allRefsF]
  | arr xs => simp [objFields, allRefsF]

theorem one_add_jsizeF_objFields_le (P : Json) :
    1 + jsizeF (objFields P) ≤ jsize P := by
  cases P with
  | obj fs => simp [objFields, jsize]
  | null => simp [objFields, jsizeF, jsize]
  | bool b => simp [objFields, jsizeF, jsize]
  | num n => simp [objFields, jsizeF, jsize]
  | str s => simp [objFields, jsizeF, jsize]
  | arr xs => simp [objFields, jsizeF, jsize]

/-- Truthiness of a possibly-absent value (`!!maybeUndefined`). -/
def truthyOpt : Option Json → Bool
  | some v => truthy v
  | none => false

theorem typeRank_ge_three {j : Json} {o : Option Json}
    (h : getField j "type" = o) (ht : truthyOpt o = false) :
    3 ≤ typeRank j := by
  unfold typeRank
  rw [h]
  cases o with
  | none => exact Nat.le_refl _
  | some v =>
    show 3 ≤ 2 * jsize v + if truthy v = true then 0 else 1
    simp only [truthyOpt] at ht
    rw [ht]
    have := jsize_pos v
    simp only [Bool.false_eq_true, if_false]
    omega

theorem typeRank_setTypeField (fs : List (String × Json)) (t : Json) :
    typeRank (setTypeField (Json.obj fs) t) =
      2 * jsize t + (if truthy t = true then 0 else 1) := by
  unfold typeRank
  rw [getField_setTypeField]

theorem typeRank_nonObj {j : Json} (h : getField j "type" = none) :
    typeRank j = 3 := by
  unfold typeRank
  rw [h]

theorem getField_nonObj {k : String} : ∀ {j : Json},
    (∀ fs, j ≠ Json.obj fs) → getField j k = none := by
  intro j h
  cases j with
  | obj fs => exact absurd rfl (h fs)
  | null => rfl
  | bool b => rfl
  | num n => rfl
  | str s => rfl
  | arr xs => rfl

theorem refsLeft_le_of_sub {spec A B : Json} {visited : List String}
    (h : allRefs A ⊆ allRefs B) :
    refsLeft spec A visited ≤ refsLeft spec B visited := by
  unfold refsLeft
  exact cardFilter_le
    (Finset.union_subset_union (Finset.Subset.refl _) h) visited

/-! ## The mapper itself -/

mutual

/-- `String(v)` / template interpolation of a JS value. -/
def jsToString : Json → String
  | Json.null => "null"
  | Json.bool b => if b then "true" else "false"
  | Json.num n => toString n
  | Json.str s => s
  | Json.arr xs => jsToStringL xs
  | Json.obj _ => "[object Object]"

/-- `Array.prototype.join(',')`; a `null` element renders as the empty
string. -/
def jsToStringL : List Json → String
  | [] => ""
  | [Json.null] => ""
  | [x] => jsToString x
  | Json.null :: xs => "," ++ jsToStringL xs
  | x :: xs => jsToString x ++ "," ++ jsToStringL xs

end

/-- View of the `ParameterObject` wrapper handling at the top of the
mapper: either the parameter has no (truthy) schema and the mapper
returns an annotated `z.any()` immediately, or the mapper proceeds on a
target schema with the wrapper's optionality/description. -/
inductive ParamView where
  | noSchema : Bool → String → ParamView
  | target : Json → Bool → Option String → ParamView

/-- First truthy of two optional strings (`a || b` on string operands). -/
def firstSome (a b : Option String) : Option String :=
  match a with
  | some x => some x
  | none => b

/-- The wrapper analysis (`'in' in schemaOrRef && 'name' in schemaOrRef`,
then `if (!param.schema)`).  Non-string descriptions are not modelled
(every description in a well-formed document is a string). -/
def paramView (node : Json) : ParamView :=
  if hasField node "in" && hasField node "name" then
    if truthyField node "schema" then
      ParamView.target ((getField node "schema").getD Json.null)
        (!(truthyField node "required")) (getStrTruthy node "description")
    else
      ParamView.noSchema (truthyField node "required")
        ((getStrTruthy node "description").getD
          ("Parameter " ++ jsToString ((getField node "name").getD Json.null)
            ++ " with no schema defined"))
  else ParamView.target node false none

theorem paramView_target {node t : Json} {o : Bool} {d : Option String}
    (h : paramView node = ParamView.target t o d) :
    t = node ∨ getField node "schema" = some t := by
  unfold paramView at h
  by_cases hc : (hasField node "in" && hasField node "name") = true
  · rw [if_pos hc] at h
    by_cases ht : truthyField node "schema" = true
    · rw [if_pos ht] at h
      cases hg : getField node "schema" with
      | none =>
        simp only [truthyField, hg] at ht
        exact Bool.noConfusion ht
      | some sch =>
        rw [hg] at h
        cases h
        right
        rfl
    · rw [if_neg ht] at h
      cases h
  · rw [if_neg hc] at h
    cases h
    exact Or.inl rfl

theorem target_allRefs_sub {node t : Json} {o : Bool} {d : Option String}
    (h : paramView node = ParamView.target t o d) :
    allRefs t ⊆ allRefs node := by
  rcases paramView_target h with rfl | hf
  · exact Finset.Subset.refl _
  · exact allRefs_sub_of_getField hf

theorem target_sizeExcl_le {node t : Json} {o : Bool} {d : Option String}
    (h : paramView node = ParamView.target t o d) :
    sizeExclType t ≤ sizeExclType node := by
  rcases paramView_target h with rfl | hf
  · exact Nat.le_refl _
  · exact Nat.le_of_lt (Nat.lt_of_le_of_lt (sizeExclType_le_jsize t)
      (jsize_lt_sizeExclType_of_getField hf (by decide)))

/-- `v === s` on a possibly-absent value. -/
def optStrictEqStr (o : Option Json) (s : String) : Bool :=
  match o with
  | some v => jsonStrictEqStr v s
  | none => false

def isStrJson : Json → Bool
  | Json.str _ => true
  | _ => false

def strOf : Json → Option String
  | Json.str s => some s
  | _ => none

/-- Numeric constraint field, applied only when present
(`schema.minLength !== undefined` and friends); a present non-numeric
value would be handed to Zod unchanged and is not modelled. -/
def jsonNumField (j : Json) (k : String) : Option Int :=
  match getField j k with
  | some (Json.num n) => some n
  | _ => none

/-- The `z.string()` refinement chain of the `string` case, in source
order: `datetime`, `email`, `uuid`, `min`, `max`, `regex`. -/
def strWithChecks (j : Json) : ZodType :=
  ZodType.strT
    ((if optStrictEqStr (getField j "format") "date-time"
        then [StrCheck.datetime] else [])
      ++ (if optStrictEqStr (getField j "format") "email"
        then [StrCheck.email] else [])
      ++ (if optStrictEqStr (getField j "format") "uuid"
        then [StrCheck.uuid] else [])
      ++ (match jsonNumField j "minLength" with
          | some n => [StrCheck.minLen n]
          | none => [])
      ++ (match jsonNumField j "maxLength" with
          | some n => [StrCheck.maxLen n]
          | none => [])
      ++ (match getField j "pattern" with
          | some (Json.str p) => [StrCheck.pattern p]
          | _ => []))

/-- `schema.required` as a list (absent or non-array behaves as empty). -/
def requiredArr (j : Json) : List Json :=
  match getField j "required" with
  | some (Json.arr rs) => rs
  | _ => []

/-- `additionalProperties === true || typeof additionalProperties ===
'object'` (the `.passthrough()` decision for objects with properties). -/
def passthroughFlag (j : Json) : Bool :=
  match getField j "additionalProperties" with
  | some (Json.bool true) => true
  | some v => isTypeofObject v
  | none => false

/-- `schema.properties || schema.additionalProperties || ('items' in
schema && schema.items)` (the structural hint of the missing-type
re-dispatch; `'items' in schema &&` only narrows the TS type). -/
def structuralHint (j : Json) : Bool :=
  truthyField j "properties" || truthyField j "additionalProperties"
    || truthyField j "items"

/-- `'items' in schema && schema.items ? 'array' : 'object'`. -/
def inferredTypeName (j : Json) : Json :=
  if truthyField j "items" then Json.str "array" else Json.str "object"

theorem structuralHint_obj {j : Json} (h : structuralHint j = true) :
    ∃ fs, j = Json.obj fs := by
  cases j with
  | obj fs => exact ⟨fs, rfl⟩
  | null => simp [structuralHint, truthyField, getField] at h
  | bool b => simp [structuralHint, truthyField, getField] at h
  | num n => simp [structuralHint, truthyField, getField] at h
  | str s => simp [structuralHint, truthyField, getField] at h
  | arr xs => simp [structuralHint, truthyField, getField] at h

theorem allRefs_inferredTypeName (j : Json) :
    allRefs (inferredTypeName j) = ∅ := by
  unfold inferredTypeName
  split <;> rfl

theorem jsize_inferredTypeName (j : Json) : jsize (inferredTypeName j) = 1 := by
  unfold inferredTypeName
  split <;> rfl

theorem truthy_inferredTypeName (j : Json) :
    truthy (inferredTypeName j) = true := by
  unfold inferredTypeName
  split <;> decide

theorem target_cases_size {node t : Json} {o : Bool} {d : Option String}
    (h : paramView node = ParamView.target t o d) :
    t = node ∨ sizeExclType t < sizeExclType node := by
  rcases paramView_target h with rfl | hf
  · exact Or.inl rfl
  · exact Or.inr (Nat.lt_of_le_of_lt (sizeExclType_le_jsize t)
      (jsize_lt_sizeExclType_of_getField hf (by decide)))

theorem allRefs_setInferred_sub (t : Json) :
    allRefs (setTypeField t (inferredTypeName t)) ⊆ allRefs t := by
  intro x hx
  have h := allRefs_setTypeField t (inferredTypeName t) hx
  rw [allRefs_inferredTypeName, Finset.union_empty] at h
  exact h

theorem typeRank_setInferred (fs : List (String × Json)) :
    typeRank (setTypeField (Json.obj fs)
      (inferredTypeName (Json.obj fs))) = 2 := by
  rw [typeRank_setTypeField, jsize_inferredTypeName, truthy_inferredTypeName]
  simp

theorem typeRank_of_typeArr {j : Json} {ts : List Json}
    (h : getField j "type" = some (Json.arr ts)) :
    typeRank j = 2 * (1 + jsizeL ts) := by
  unfold typeRank
  rw [h]
  show 2 * jsize (Json.arr ts) + (if truthy (Json.arr ts) = true then 0 else 1)
    = 2 * (1 + jsizeL ts)
  simp [truthy, jsize]

mutual

/-- `mapOpenApiTypeToZod(schemaOrRef, spec, visitedRefs)` (api.js lines
288-517): maps an OpenAPI parameter/schema/reference node to a Zod type.
`visited` is the set of `$ref` strings already entered on the current
recursive path; each recursive descent passes it unchanged (the source
passes `new Set(visitedRefs)`, never mutating a caller's set) and only the
`$ref` descent extends it.  A node whose `$ref` field is not a string, and
a primitive node, would make the source raise to the compiler's per-spec
`catch`; they are treated as plain schemas here. -/
def mapOpenApiTypeToZod (node : Json) (spec : Json)
    (visited : List String) : ZodType :=
  match hpv : paramView node with
  | ParamView.noSchema required desc =>
      -- Parameter without schema: `z.any().describe(...)`, optionality
      -- from `param.required`.
      let anyType := describeZ ZodType.anyT desc
      if required then anyType else ZodType.optionalT anyType
  | ParamView.target target isOptional descParam =>
    match href : getField target "$ref" with
    | some (Json.str refString) =>
        if hvis : refString ∈ visited then
          -- circular reference detected
          let circularType :=
            describeZ ZodType.anyT ("Circular reference: " ++ refString)
          if isOptional then ZodType.optionalT circularType else circularType
        else
          match hres : resolveReference spec refString with
          | none =>
              let unresolvedType :=
                describeZ ZodType.anyT ("Unresolved reference: " ++ refString)
              if isOptional then ZodType.optionalT unresolvedType
              else unresolvedType
          | some resolved =>
              let resolvedType :=
                mapOpenApiTypeToZod resolved spec (refString :: visited)
              let finalType :=
                match firstSome descParam (getStrTruthy resolved "description")
                  with
                | some descr => describeZ resolvedType descr
                | none => resolvedType
              if isOptional then ZodType.optionalT finalType else finalType
    | _ =>
      -- core type mapping on the (non-reference) schema `target`
      let zodType : ZodType :=
        match htype : getField target "type" with
        | some (Json.str "string") =>
            -- a valid non-empty all-string enum replaces z.string(); the
            -- source would then crash applying format/length refinements
            -- to the ZodEnum, so such checks only appear without an enum
            (match getField target "enum" with
             | some (Json.arr es) =>
                 if es.all isStrJson && !es.isEmpty then
                   ZodType.enumT (es.filterMap strOf)
                 else strWithChecks target
             | _ => strWithChecks target)
        | some (Json.str "integer") => ZodType.intT
        | some (Json.str "number") => ZodType.numT
        | some (Json.str "boolean") => ZodType.boolT
        | some (Json.str "array") =>
            (match hitems : getField target "items" with
             | some items =>
                 if truthy items then
                   ZodType.arrayT (mapOpenApiTypeToZod items spec visited)
                     (jsonNumField target "minItems")
                     (jsonNumField target "maxItems")
                 else ZodType.arrayT ZodType.anyT none none
             | none => ZodType.arrayT ZodType.anyT none none)
        | some (Json.str "object") =>
            (match hprops : getField target "properties" with
             | some props =>
                 if truthy props then
                   ZodType.objectT
                     (mapZodProps (objFields props) (requiredArr target)
                       spec visited)
                     (passthroughFlag target)
                 else
                   (match hap : getField target "additionalProperties" with
                    | some ap =>
                        if truthy ap then
                          ZodType.recordT
                            (if isTypeofObject ap then
                              mapOpenApiTypeToZod ap spec visited
                             else ZodType.anyT)
                        else ZodType.objectT [] false
                    | none => ZodType.objectT [] false)
             | none =>
                 (match hap : getField target "additionalProperties" with
                  | some ap =>
                      if truthy ap then
                        ZodType.recordT
                          (if isTypeofObject ap then
                            mapOpenApiTypeToZod ap spec visited
                           else ZodType.anyT)
                      else ZodType.objectT [] false
                  | none => ZodType.objectT [] false))
        | some (Json.arr ts) =>
            -- OpenAPI 3.1 style type arrays (e.g. ['string', 'null'])
            let nonNullTypes := ts.filter (fun t => !(jsonStrictEqStr t "null"))
            let zodTypes := mapZodTypeList target nonNullTypes spec visited
            let includesNull := ts.any (fun t => jsonStrictEqStr t "null")
            let base :=
              match zodTypes with
              | [] => if includesNull then ZodType.nullT else ZodType.anyT
              | [z1] => z1
              | zs => ZodType.unionT zs
            if includesNull && !(isZodNullInst base) then
              ZodType.unionT [base, ZodType.nullT]
            else base
        | o =>
            if hto : truthyOpt o = true then ZodType.anyT
            else if hstruct : structuralHint target = true then
              -- missing/falsy type with object- or array-shaped fields
              mapOpenApiTypeToZod (setTypeField target (inferredTypeName target))
                spec visited
            else ZodType.anyT
      -- OpenAPI 3.0 `nullable: true`
      let zodType2 :=
        if truthyField target "nullable" then
          if isAlreadyNullable zodType then zodType
          else ZodType.unionT [zodType, ZodType.nullT]
        else zodType
      -- description (parameter description wins over schema description)
      let zodType3 :=
        match firstSome descParam (getStrTruthy target "description") with
        | some descr => describeZ zodType2 descr
        | none => zodType2
      -- optionality of a non-required parameter
      if isOptional then ZodType.optionalT zodType3 else zodType3
termination_by
  (refsLeft spec node visited, sizeExclType node, typeRank node)
decreasing_by
  · -- resolved reference
    apply lexNat3_first
    exact refsLeft_lt_ref (target_allRefs_sub hpv (mem_allRefs_of_ref href))
      hvis (allRefs_sub_of_resolveReference hres)
  · -- array items
    apply lexNat3_second
    · exact refsLeft_le_of_sub (Finset.Subset.trans
        (allRefs_sub_of_getField hitems) (target_allRefs_sub hpv))
    · exact Nat.lt_of_le_of_lt (sizeExclType_le_jsize items)
        (Nat.lt_of_lt_of_le
          (jsize_lt_sizeExclType_of_getField hitems (by decide))
          (target_sizeExcl_le hpv))
  · -- object properties
    apply lexNat3_second
    · unfold refsLeft
      apply cardFilter_le
      apply Finset.union_subset_union (Finset.Subset.refl _)
      exact Finset.Subset.trans (allRefsF_objFields_sub props)
        (Finset.Subset.trans (allRefs_sub_of_getField hprops)
          (target_allRefs_sub hpv))
    · have h1 := one_add_jsizeF_objFields_le props
      have h2 := jsize_lt_sizeExclType_of_getField hprops (by decide)
      have h3 := target_sizeExcl_le hpv
      omega
  · -- additionalProperties record (properties present but falsy)
    apply lexNat3_second
    · exact refsLeft_le_of_sub (Finset.Subset.trans
        (allRefs_sub_of_getField hap) (target_allRefs_sub hpv))
    · exact Nat.lt_of_le_of_lt (sizeExclType_le_jsize ap)
        (Nat.lt_of_lt_of_le
          (jsize_lt_sizeExclType_of_getField hap (by decide))
          (target_sizeExcl_le hpv))
  · -- additionalProperties record (properties absent)
    apply lexNat3_second
    · exact refsLeft_le_of_sub (Finset.Subset.trans
        (allRefs_sub_of_getField hap) (target_allRefs_sub hpv))
    · exact Nat.lt_of_le_of_lt (sizeExclType_le_jsize ap)
        (Nat.lt_of_lt_of_le
          (jsize_lt_sizeExclType_of_getField hap (by decide))
          (target_sizeExcl_le hpv))
  · -- 3.1 type array
    have hsub : allRefsL (ts.filter (fun t => !(jsonStrictEqStr t "null")))
        ⊆ allRefs target :=
      Finset.Subset.trans
        (allRefsL_filter_sub (fun t => !(jsonStrictEqStr t "null")) ts)
        (allRefs_sub_of_getField htype)
    rcases target_cases_size hpv with heq | hlt
    · subst heq
      apply lexNat3_third
      · unfold refsLeft
        apply cardFilter_le
        apply Finset.union_subset_union (Finset.Subset.refl _)
        exact Finset.union_subset (Finset.Subset.refl _) hsub
      · exact Nat.le_refl _
      · rw [typeRank_of_typeArr htype]
        have := jsizeL_filter_le (fun t => !(jsonStrictEqStr t "null")) ts
        omega
    · apply lexNat3_second
      · unfold refsLeft
        apply cardFilter_le
        apply Finset.union_subset_union (Finset.Subset.refl _)
        exact Finset.union_subset (target_allRefs_sub hpv)
          (Finset.Subset.trans hsub (target_allRefs_sub hpv))
      · exact hlt
  · -- missing-type re-dispatch
    rcases target_cases_size hpv with heq | hlt
    · subst heq
      obtain ⟨fs, hfs⟩ := structuralHint_obj hstruct
      subst hfs
      apply lexNat3_third
      · exact refsLeft_le_of_sub (allRefs_setInferred_sub _)
      · exact Nat.le_of_eq (sizeExclType_setTypeField _ _)
      · rw [typeRank_setInferred]
        have hto' : truthyOpt o = false := by simpa using hto
        have := typeRank_ge_three htype hto'
        omega
    · apply lexNat3_second
      · exact refsLeft_le_of_sub (Finset.Subset.trans
          (allRefs_setInferred_sub target) (target_allRefs_sub hpv))
      · rw [sizeExclType_setTypeField]
        exact hlt

/-- The property loop of the `object` case: each property schema is
mapped with a copy of `visited`, then made optional unless listed in the
object schema's own `required` array. -/
def mapZodProps (props : List (String × Json)) (req : List Json)
    (spec : Json) (visited : List String) : List (String × ZodType) :=
  match hp : props with
  | [] => []
  | (k, v) :: rest =>
      let m := mapOpenApiTypeToZod v spec visited
      let m2 := if req.any (fun e => jsonStrictEqStr e k) then m
                else ZodType.optionalT m
      (k, m2) :: mapZodProps rest req spec visited
termination_by
  (((allRefs spec ∪ allRefsF props).filter (fun r => r ∉ visited)).card,
    1 + jsizeF props, 0)
decreasing_by
  · apply lexNat3_second
    · unfold refsLeft
      apply cardFilter_le
      apply Finset.union_subset_union (Finset.Subset.refl _)
      exact allRefs_sub_of_mem_fields (List.mem_cons_self (k, v) rest)
    · have h1 := sizeExclType_le_jsize v
      simp only [jsizeF]
      omega
  · apply lexNat3_second
    · apply cardFilter_le
      apply Finset.union_subset_union (Finset.Subset.refl _)
      exact allRefsF_tail_sub (k, v) rest
    · simp only [jsizeF]
      have := jsize_pos v
      omega

/-- The member loop of the 3.1 type-array case: each non-null member `t`
is mapped as `{...schema, type: t}` with a copy of `visited`. -/
def mapZodTypeList (schema : Json) (types : List Json) (spec : Json)
    (visited : List String) : List ZodType :=
  match ht : types with
  | [] => []
  | t :: rest =>
      mapOpenApiTypeToZod (setTypeField schema t) spec visited
        :: mapZodTypeList schema rest spec visited
termination_by
  (((allRefs spec ∪ (allRefs schema ∪ allRefsL types)).filter
      (fun r => r ∉ visited)).card,
    sizeExclType schema, 2 * jsizeL types)
decreasing_by
  · have hsub : allRefs (setTypeField schema t)
        ⊆ allRefs schema ∪ allRefsL (t :: rest) := by
      intro x hx
      have h := allRefs_setTypeField schema t hx
      rw [Finset.mem_union] at h ⊢
      rcases h with h | h
      · exact Or.inl h
      · exact Or.inr (allRefs_sub_of_mem_list (List.mem_cons_self t rest) h)
    cases schema with
    | obj fs =>
      apply lexNat3_third
      · unfold refsLeft
        apply cardFilter_le
        exact Finset.union_subset_union (Finset.Subset.refl _) hsub
      · exact Nat.le_of_eq (sizeExclType_setTypeField _ _)
      · rw [typeRank_setTypeField]
        have := jsize_pos t
        simp only [jsizeL]
        split <;> omega
    | null =>
      apply lexNat3_third
      · unfold refsLeft
        apply cardFilter_le
        exact Finset.union_subset_union (Finset.Subset.refl _) hsub
      · exact Nat.le_refl _
      · rw [typeRank_nonObj (by rfl)]
        have := jsize_pos t
        simp only [jsizeL]
        omega
    | bool b =>
      apply lexNat3_third
      · unfold refsLeft
        apply cardFilter_le
        exact Finset.union_subset_union (Finset.Subset.refl _) hsub
      · exact Nat.le_refl _
      · rw [typeRank_nonObj (by rfl)]
        have := jsize_pos t
        simp only [jsizeL]
        omega
    | num n =>
      apply lexNat3_third
      · unfold refsLeft
        apply cardFilter_le
        exact Finset.union_subset_union (Finset.Subset.refl _) hsub
      · exact Nat.le_refl _
      · rw [typeRank_nonObj (by rfl)]
        have := jsize_pos t
        simp only [jsizeL]
        omega
    | str s =>
      apply lexNat3_third
      · unfold refsLeft
        apply cardFilter_le
        exact Finset.union_subset_union (Finset.Subset.refl _) hsub
      · exact Nat.le_refl _
      · rw [typeRank_nonObj (by rfl)]
        have := jsize_pos t
        simp only [jsizeL]
        omega
    | arr xs =>
      apply lexNat3_third
      · unfold refsLeft
        apply cardFilter_le
        exact Finset.union_subset_union (Finset.Subset.refl _) hsub
      · exact Nat.le_refl _
      · rw [typeRank_nonObj (by rfl)]
        have := jsize_pos t
        simp only [jsizeL]
        omega
  · apply lexNat3_third
    · apply cardFilter_le
      apply Finset.union_subset_union (Finset.Subset.refl _)
      exact Finset.union_subset_union (Finset.Subset.refl _)
        (allRefsL_tail_sub t rest)
    · exact Nat.le_refl _
    · simp only [jsizeL]
      have := jsize_pos t
      omega

end

/-! ## Security Classifier (api.js lines 585-607 and 647-682)

The document-level scan and the per-operation scan are two copies of the
same loop in the source; they are shared here as
`scanSecurityRequirements`. -/

/-- `spec.components?.securitySchemes`. -/
def secSchemes (spec : Json) : Option Json :=
  (getField spec "components").bind (fun c => getField c "securitySchemes")

/-- `j.k` when it is a string (plain property read, no truthiness). -/
def getStr (j : Json) (k : String) : Option String :=
  match getField j k with
  | some (Json.str s) => some s
  | _ => none

/-- Inner loop over one security requirement's scheme names: look the
scheme up, resolve it if it is a reference (keeping the reference on
resolution failure), and report the first scheme of type `openIdConnect`
together with its `openIdConnectUrl`.  A scheme whose `$ref` is not a
string would make the source raise to the per-spec catch and is treated
as an unresolvable reference here. -/
def scanRequirement (spec : Json) : List (String × Json) →
    Option (Bool × Option String)
  | [] => none
  | (schemeName, _) :: rest =>
      match (secSchemes spec).bind (fun ss => getField ss schemeName) with
      | some scheme =>
          if truthy scheme then
            let resolvedScheme :=
              match getField scheme "$ref" with
              | some (Json.str r) => (resolveReference spec r).getD scheme
              | _ => scheme
            if !(hasField resolvedScheme "$ref")
                && optStrictEqStr (getField resolvedScheme "type")
                  "openIdConnect" then
              some (true, getStr resolvedScheme "openIdConnectUrl")
            else scanRequirement spec rest
          else scanRequirement spec rest
      | none => scanRequirement spec rest

/-- Outer loop over the requirement list; first match wins and
short-circuits, no match leaves `(false, undefined)`. -/
def scanSecurityRequirements (spec : Json) : List Json → Bool × Option String
  | [] => (false, none)
  | req :: rest =>
      match scanRequirement spec (objFields req) with
      | some res => res
      | none => scanSecurityRequirements spec rest

/-- Elements of a possibly-absent array value (used where the source
iterates `x || []`, or relies on `.length` of a value it knows is an
array). -/
def asArrD (o : Option Json) : List Json :=
  match o with
  | some (Json.arr xs) => xs
  | _ => []

/-- The document-level default
(`if (spec.security && spec.components?.securitySchemes) ...`,
api.js lines 586-607). -/
def computeGlobalAuth (spec : Json) : Bool × Option String :=
  if truthyField spec "security" && truthyOpt (secSchemes spec) then
    scanSecurityRequirements spec (asArrD (getField spec "security"))
  else (false, none)

/-- The per-operation classification (api.js lines 647-681):
`opSecurity = getField operation "security"` — absent inherits the
document default verbatim; a non-empty array re-runs the scan (when
schemes exist); an empty array, a non-empty array without declared
schemes, and a non-array value (whose `.length` is `undefined`) all
classify as requiring no external auth. -/
def classifyOperation (spec : Json) (globalAuth : Bool × Option String)
    (opSecurity : Option Json) : Bool × Option String :=
  match opSecurity with
  | none => globalAuth
  | some v =>
      match asArr v with
      | some l =>
          if l.length > 0 && truthyOpt (secSchemes spec) then
            scanSecurityRequirements spec l
          else (false, none)
      | none => (false, none)

/-! ## Tool Compiler (`generateOpenApiTools`, api.js lines 575-758)

The input map holds raw YAML text in the source; `yaml.load` is the
js-yaml library boundary, so the embedding takes the already-parsed
documents.  A spec whose parsing or processing raises is skipped by the
per-spec `catch` (the raising constructs are noted on the definitions
they would hit). -/

/-- Flattened `executionDetails` of a tool descriptor.  The direct-return
fields are used by tools from other registries; `generateOpenApiTools`
leaves them unset (`false`/empty). -/
structure ExecutionDetails where
  isDirectReturnValue : Bool
  directReturnValue : String
  targetServer : Option String
  httpMethod : String
  apiPath : String
  openapiParameters : List Json
  openapiRequestBody : Option Json
  openIdConnectUrl : Option String

/-- One generated tool descriptor (the object pushed at api.js line 731). -/
structure OpenApiTool where
  method : String
  name : String
  description : String
  parameters : ZodType
  category : String
  productName : String
  specPath : String
  executionDetails : ExecutionDetails

/-- `Object.values(OpenAPIV3.HttpMethods)`. -/
def httpVerbs : List String :=
  ["get", "put", "post", "delete", "options", "head", "patch", "trace"]

/-- JS object property assignment `o[k] = v` on an association list:
replaces in place or appends. -/
def setAssoc {α : Type} : List (String × α) → String → α →
    List (String × α)
  | [], k, v => [(k, v)]
  | (k', v') :: rest, k, v =>
      if k' == k then (k, v) :: rest else (k', v') :: setAssoc rest k v

/-- `httpMethod.toUpperCase()` (ASCII). -/
def jsToUpperCase (s : String) : String :=
  String.mk (s.data.map Char.toUpper)

/-- One step of the `allParams.forEach` loop (api.js lines 630-646):
resolve a parameter reference (skipping it when unresolvable), then map
the resolved parameter into the tool's parameter shape under its name
(`obj[undefined]` stringifies to the key `"undefined"`). -/
def addParamToShape (spec : Json) (shape : List (String × ZodType))
    (paramOrRef : Json) : List (String × ZodType) :=
  let resolvedParam : Option Json :=
    if hasField paramOrRef "$ref" then
      match getField paramOrRef "$ref" with
      | some (Json.str r) => resolveReference spec r
      | _ => none
    else some paramOrRef
  match resolvedParam with
  | none => shape
  | some p =>
      setAssoc shape ((getStr p "name").getD "undefined")
        (mapOpenApiTypeToZod p spec [])

/-- The request-body processing (api.js lines 683-723): resolve the body
if it is a reference (skipping on failure), take the `application/json`
schema if truthy, map it, describe it (`requestBodyDesc ||
schemaDescription || 'Request body payload'`), make it optional unless
the body is required, and store it under the key `body`. -/
def addBodyToShape (spec : Json) (shape : List (String × ZodType))
    (reqBodyField : Option Json) : List (String × ZodType) :=
  match reqBodyField with
  | none => shape
  | some rb =>
    if truthy rb then
      let resolvedRB : Option Json :=
        if hasField rb "$ref" then
          match getField rb "$ref" with
          | some (Json.str r) => resolveReference spec r
          | _ => none
        else some rb
      match resolvedRB with
      | none => shape
      | some body =>
          match (getField body "content").bind
              (fun c => getField c "application/json") with
          | some jc =>
              (match getField jc "schema" with
               | some sch =>
                   if truthy sch then
                     let bodyType := mapOpenApiTypeToZod sch spec []
                     let schemaDescription :=
                       if !(hasField sch "$ref") then
                         getStrTruthy sch "description"
                       else none
                     let describedBody :=
                       describeZ bodyType
                         ((firstSome (getStrTruthy body "description")
                           schemaDescription).getD "Request body payload")
                     let finalBody :=
                       if !(truthyField body "required") then
                         ZodType.optionalT describedBody
                       else describedBody
                     setAssoc shape "body" finalBody
                   else shape
               | none => shape)
          | none => shape
    else shape

/-- The descriptor built for one operation (api.js lines 622-747).
Non-string `operationId`/`summary`/`description` values are not
modelled (a non-string `operationId` would make the sanitizer call
raise to the per-spec catch). -/
def buildTool (productName specPath : String) (spec : Json)
    (globalAuth : Bool × Option String) (targetServer : Option String)
    (pathParams : List Json) (apiPath httpMethod : String)
    (operation : Json) : OpenApiTool :=
  let safeMethodNameBase :=
    match getStrTruthy operation "operationId" with
    | some oid => sanitizeForMethodName oid
    | none => sanitizeForMethodName (httpMethod ++ "_" ++ apiPath)
  let dynamicMethodName := "api_" ++ safeMethodNameBase
  let dynamicToolName :=
    (getStrTruthy operation "summary").getD
      (jsToUpperCase httpMethod ++ " " ++ apiPath)
  let dynamicDescription :=
    (firstSome (getStrTruthy operation "description")
      (getStrTruthy operation "summary")).getD
      ("Executes " ++ jsToUpperCase httpMethod ++ " on " ++ apiPath)
  let operationParams := asArrD (getField operation "parameters")
  let allParams := pathParams ++ operationParams
  let shape0 := allParams.foldl (addParamToShape spec) []
  let auth := classifyOperation spec globalAuth (getField operation "security")
  let shape1 := addBodyToShape spec shape0 (getField operation "requestBody")
  let shape2 :=
    if auth.1 then
      setAssoc shape1 "X-User-Authorization"
        (describeZ (ZodType.optionalT (ZodType.strT []))
          "Optional: Provide a Bearer token for OpenID Connect authentication (e.g., \"Bearer <token>\"). If not provided, the system will attempt to use its configured credentials.")
    else shape1
  OpenApiTool.mk dynamicMethodName dynamicToolName dynamicDescription
    (ZodType.objectT shape2 false) ("api_" ++ productName) productName
    specPath
    (ExecutionDetails.mk false "" targetServer httpMethod apiPath allParams
      (getField operation "requestBody") auth.2)

/-- The verb loop over one path item: every key that is a recognised HTTP
verb with a truthy operation value yields a tool. -/
def toolsForPathItem (productName specPath : String) (spec : Json)
    (globalAuth : Bool × Option String) (targetServer : Option String)
    (apiPath : String) (pathItem : Json) : List OpenApiTool :=
  let pathParams := asArrD (getField pathItem "parameters")
  (objFields pathItem).filterMap (fun kv =>
    if httpVerbs.contains kv.1 && truthy kv.2 then
      some (buildTool productName specPath spec globalAuth targetServer
        pathParams apiPath kv.1 kv.2)
    else none)

/-- Tools of one parsed document; a document that is not a truthy object
with a truthy `paths` is skipped. -/
def toolsForSpec (productName specPath : String) (spec : Json) :
    List OpenApiTool :=
  if truthy spec && isTypeofObject spec && truthyField spec "paths" then
    let globalAuth := computeGlobalAuth spec
    let targetServer :=
      ((asArrD (getField spec "servers")).head?).bind
        (fun s => getStr s "url")
    ((objFields ((getField spec "paths").getD Json.null)).map (fun kv =>
      if truthy kv.2 then
        toolsForPathItem productName specPath spec globalAuth targetServer
          kv.1 kv.2
      else [])).flatten
  else []

/-- `generateOpenApiTools(specData)` over parsed documents: products in
map order, specs in map order, push order preserved. -/
def generateOpenApiTools
    (specData : List (String × List (String × Json))) : List OpenApiTool :=
  (specData.map (fun prod =>
    (prod.2.map (fun sp => toolsForSpec prod.1 sp.1 sp.2)).flatten)).flatten

/-! ## Token Manager (`getValidAccessToken`, api.js lines 29-85)

The axios `POST {baseUrl}/token` is the network boundary; its outcome is
an explicit argument.  `Date.now()` is the explicit `now` (ms). -/

/-- Mutable token state of a client (`accessToken`, `tokenExpiry`). -/
structure TokenState where
  accessToken : Option String
  tokenExpiry : Option Int

/-- Body of a 2xx `/token` response (`{access_token, expires_in?}`). -/
structure TokenData where
  access_token : Option String
  expires_in : Option Int

/-- Outcome of the token exchange request. -/
inductive TokenExchangeOutcome where
  | success : TokenData → TokenExchangeOutcome
  | respError : Nat → String → TokenExchangeOutcome
  | noResponse : TokenExchangeOutcome

/-- Classified token-acquisition failures (`Token Error (Status s)` /
`Network Error` / `Token Request Error` messages). -/
inductive TokenError where
  | authError : Nat → String → TokenError
  | networkError : TokenError
  | requestError : String → TokenError

/-- Result of one `getValidAccessToken` call: the returned token or the
raised error, the state afterwards, and whether a token exchange was
performed. -/
structure TokenFetchResult where
  result : Except TokenError String
  state : TokenState
  exchanged : Bool

/-- The reuse guard
`this.accessToken && this.tokenExpiry && Date.now() < this.tokenExpiry -
bufferSeconds * 1000` (both stored fields must be truthy: an empty token
string or a zero expiry timestamp is falsy). -/
def canReuse (st : TokenState) (now : Int) : Bool :=
  match st.accessToken, st.tokenExpiry with
  | some tok, some exp => tok != "" && exp != 0 && decide (now < exp - 30 * 1000)
  | _, _ => false

/-- `getValidAccessToken()`.  On exchange success the expiry is
`Date.now() + expires_in * 1000` when `expires_in` is truthy, otherwise
`null` ("we can't cache based on time"); a response without a truthy
`access_token` raises inside the `try`, so the `catch` wipes the state
and rethrows a `Token Request Error`; non-2xx and no-response failures
wipe the state and raise their classified errors. -/
def getValidAccessToken (st : TokenState) (now : Int)
    (outcome : TokenExchangeOutcome) : TokenFetchResult :=
  if canReuse st now then
    TokenFetchResult.mk (Except.ok (st.accessToken.getD "")) st false
  else
    match outcome with
    | TokenExchangeOutcome.success d =>
        match d.access_token with
        | some tok =>
            if tok == "" then
              TokenFetchResult.mk
                (Except.error (TokenError.requestError
                  "Received invalid token response from /token endpoint."))
                (TokenState.mk none none) true
            else
              let expiry : Option Int :=
                match d.expires_in with
                | some e => if e != 0 then some (now + e * 1000) else none
                | none => none
              TokenFetchResult.mk (Except.ok tok)
                (TokenState.mk (some tok) expiry) true
        | none =>
            TokenFetchResult.mk
              (Except.error (TokenError.requestError
                "Received invalid token response from /token endpoint."))
              (TokenState.mk none none) true
    | TokenExchangeOutcome.respError status detail =>
        TokenFetchResult.mk
          (Except.error (TokenError.authError status detail))
          (TokenState.mk none none) true
    | TokenExchangeOutcome.noResponse =>
        TokenFetchResult.mk (Except.error TokenError.networkError)
          (TokenState.mk none none) true

/-! ## JSON.stringify -/

/-- Lowercase hex digit. -/
def hexDigitChar (n : Nat) : Char :=
  if n < 10 then Char.ofNat ('0'.toNat + n) else Char.ofNat ('a'.toNat + n - 10)

/-- JSON string escaping of one character. -/
def jsonEscapeChar (c : Char) : String :=
  if c = '"' then "\\\""
  else if c = '\\' then "\\\\"
  else if c = '\n' then "\\n"
  else if c = '\r' then "\\r"
  else if c = '\t' then "\\t"
  else if c = '\x08' then "\\b"
  else if c = '\x0c' then "\\f"
  else if c.toNat < 0x20 then
    "\\u00" ++ String.mk [hexDigitChar (c.toNat / 16), hexDigitChar (c.toNat % 16)]
  else String.singleton c

/-- A JSON string literal. -/
def jsonQuote (s : String) : String :=
  "\"" ++ String.join (s.data.map jsonEscapeChar) ++ "\""

mutual

/-- `JSON.stringify(v)` (object keys in insertion order). -/
def jsonStringify : Json → String
  | Json.null => "null"
  | Json.bool b => if b then "true" else "false"
  | Json.num n => toString n
  | Json.str s => jsonQuote s
  | Json.arr xs => "[" ++ jsonStringifyL xs ++ "]"
  | Json.obj fs => "\x7b" ++ jsonStringifyF fs ++ "\x7d"

def jsonStringifyL : List Json → String
  | [] => ""
  | [x] => jsonStringify x
  | x :: xs => jsonStringify x ++ "," ++ jsonStringifyL xs

def jsonStringifyF : List (String × Json) → String
  | [] => ""
  | [(k, v)] => jsonQuote k ++ ":" ++ jsonStringify v
  | (k, v) :: fs => jsonQuote k ++ ":" ++ jsonStringify v ++ ","
      ++ jsonStringifyF fs

end

/-! ## Authenticated client requests (`makeRequest`, api.js lines 90-144) -/

/-- Outcome of the axios call of a client request or a tool execution. -/
inductive ApiOutcome where
  | success : Json → ApiOutcome
  | respError : Nat → Json → ApiOutcome
  | noResponse : ApiOutcome

/-- Classified `makeRequest` failures. -/
inductive RequestError where
  | apiError : Nat → String → RequestError
  | networkError : RequestError
  | setupError : String → RequestError

/-- The message of a raised token-acquisition error. -/
def tokenErrorMessage : TokenError → String
  | TokenError.authError status detail =>
      "Token Error (Status " ++ toString status ++ "): " ++ detail
  | TokenError.networkError =>
      "Network Error: No response received from MCP /token endpoint."
  | TokenError.requestError msg => "Token Request Error: " ++ msg

/-- `errorData?.message || errorData?.error || JSON.stringify(errorData)`. -/
def apiErrorDetails (d : Json) : String :=
  ((firstSome (getStrTruthy d "message") (getStrTruthy d "error")).getD
    (jsonStringify d))

/-- `makeRequest(endpoint, method, data)`: acquires a token (its `try`
wraps the acquisition, so a token failure — an `Error` with neither
`.response` nor `.request` — is re-raised as `Request Setup Error`),
issues the request, and classifies the outcome.  A 401 response
invalidates the stored token before the error is raised. -/
def makeRequest (st : TokenState) (now : Int)
    (tokenOutcome : TokenExchangeOutcome) (apiOutcome : ApiOutcome) :
    Except RequestError Json × TokenState :=
  let t := getValidAccessToken st now tokenOutcome
  match t.result with
  | Except.error e =>
      (Except.error (RequestError.setupError
        ("Request Setup Error: " ++ tokenErrorMessage e
          ++ ". Check request parameters.")), t.state)
  | Except.ok _tok =>
      match apiOutcome with
      | ApiOutcome.success d => (Except.ok d, t.state)
      | ApiOutcome.respError status d =>
          let msg := "MCP API Error (Status " ++ toString status ++ "): "
            ++ apiErrorDetails d
          if status == 401 then
            (Except.error (RequestError.apiError status
              (msg ++ " (Token might be expired or invalid)")),
              TokenState.mk none none)
          else
            (Except.error (RequestError.apiError status msg), t.state)
      | ApiOutcome.noResponse =>
          (Except.error RequestError.networkError, t.state)

/-! ## Spec Cache (`getSpecContentWithCache`, api.js lines 11-21 and
191-217)

The upstream `getSpecContent` network fetch is the boundary; the content
it would return is the explicit `fetched` argument, and the returned
`Bool` records whether that fetch happened.  `Date.now()` is sampled as
the single `now` per call (the source samples it once for the expiry
check and once for the stored expiry). -/

/-- One cache entry (`{content, expiry}`). -/
structure SpecCacheEntry where
  content : String
  expiry : Int

/-- Constructor TTL normalisation (api.js line 16): absent or negative
`cacheTTL` falls back to the 5-minute default, `0` disables caching. -/
def initCacheTTL (opt : Option Int) : Int :=
  match opt with
  | none => 300000
  | some t => if t < 0 then 300000 else t

/-- Generic association lookup (JS `map.get` / `obj[k]`). -/
def lookupAssoc {α : Type} : List (String × α) → String → Option α
  | [], _ => none
  | (k', v) :: rest, k => if k' == k then some v else lookupAssoc rest k

/-- `Map.delete` of the first (only) binding of `k`. -/
def eraseAssoc {α : Type} : List (String × α) → String →
    List (String × α)
  | [], _ => []
  | (k', v) :: rest, k =>
      if k' == k then rest else (k', v) :: eraseAssoc rest k

/-- `getSpecContentWithCache(productName, specPath)`: content, new cache
state, and whether the upstream fetch happened. -/
def getSpecContentWithCache (cacheTTL : Int)
    (specCache : List (String × SpecCacheEntry)) (now : Int)
    (productName specPath : String) (fetched : String) :
    String × List (String × SpecCacheEntry) × Bool :=
  let cacheKey := productName ++ "::" ++ specPath
  let checked : Option String × List (String × SpecCacheEntry) :=
    if cacheTTL > 0 then
      match lookupAssoc specCache cacheKey with
      | some entry =>
          if now < entry.expiry then (some entry.content, specCache)
          else (none, eraseAssoc specCache cacheKey)
      | none => (none, specCache)
    else (none, specCache)
  match checked with
  | (some content, c) => (content, c, false)
  | (none, c) =>
      if cacheTTL > 0 then
        (fetched,
          setAssoc c cacheKey (SpecCacheEntry.mk fetched (now + cacheTTL)),
          true)
      else (fetched, c, true)

/-! ## Tool Executor (`executeOpenApiTool`, mcp_api_executor.js lines
9-135)

The axios call is the boundary (`ApiOutcome`); the result of the awaited
`getAuthenticationHeaders()` is the `authHeaders` argument.  A raised
error is `Except.error` with the source's message (for the rethrown
axios error without a response, a fixed marker standing for the original
error object). -/

/-- The assembled axios request config. -/
structure RequestConfig where
  method : String
  url : String
  headers : List (String × String)
  queryParams : List (String × Json)
  data : Option Json

/-- `encodeURIComponent` unreserved characters. -/
def isUnreservedURI (c : Char) : Bool :=
  ('a' ≤ c ∧ c ≤ 'z') ∨ ('A' ≤ c ∧ c ≤ 'Z') ∨ ('0' ≤ c ∧ c ≤ '9')
    ∨ c = '-' ∨ c = '_' ∨ c = '.' ∨ c = '!' ∨ c = '~' ∨ c = '*'
    ∨ c = '\'' ∨ c = '(' ∨ c = ')'

/-- Uppercase hex digit. -/
def hexDigitCharUpper (n : Nat) : Char :=
  if n < 10 then Char.ofNat ('0'.toNat + n) else Char.ofNat ('A'.toNat + n - 10)

/-- `%HH` for one byte. -/
def percentEncodeByte (b : Nat) : String :=
  "%" ++ String.mk [hexDigitCharUpper (b / 16), hexDigitCharUpper (b % 16)]

/-- `encodeURIComponent(s)`. -/
def encodeURIComponent (s : String) : String :=
  String.join (s.data.map (fun c =>
    if isUnreservedURI c then String.singleton c
    else String.join ((utf8EncodeNat c.toNat).map percentEncodeByte)))

/-- `url.replace(pattern, replacement)` with a string pattern: first
occurrence only (the replacement contains no `$`, being percent-encoded). -/
def replaceFirstAux (pat repl : List Char) : List Char → List Char
  | [] => []
  | c :: rest =>
      if pat.isPrefixOf (c :: rest) then repl ++ (c :: rest).drop pat.length
      else c :: replaceFirstAux pat repl rest

def replaceFirst (s pat repl : String) : String :=
  String.mk (replaceFirstAux pat.data repl.data s.data)

/-- One step of the parameter-placement loop (executor lines 45-76):
unresolved references are skipped; a missing argument is skipped (with a
warning when required); `path` parameters replace `{name}` in the URL
percent-encoded, `query` parameters accumulate, `header` parameters are
stringified into headers, anything else (e.g. `cookie`) is ignored. -/
def processParam (parameters : List (String × Json))
    (acc : String × List (String × Json) × List (String × String))
    (paramOrRef : Json) :
    String × List (String × Json) × List (String × String) :=
  if hasField paramOrRef "$ref" then acc
  else
    let paramName := (getStr paramOrRef "name").getD "undefined"
    match lookupAssoc parameters paramName with
    | none => acc
    | some paramValue =>
        match getStr paramOrRef "in" with
        | some "path" =>
            (replaceFirst acc.1 ("\x7b" ++ paramName ++ "\x7d")
              (encodeURIComponent (jsToString paramValue)),
              acc.2.1, acc.2.2)
        | some "query" =>
            (acc.1, setAssoc acc.2.1 paramName paramValue, acc.2.2)
        | some "header" =>
            (acc.1, acc.2.1,
              setAssoc acc.2.2 paramName (jsToString paramValue))
        | _ => acc

/-- One `{type: "text", text}` content item. -/
structure ToolContent where
  type : String
  text : String

/-- The normalized tool result; a missing `isError` field is `false`. -/
structure ToolResult where
  content : List ToolContent
  isError : Bool

/-- `executeOpenApiTool(input)` with the axios outcome supplied:
`Except.ok` is a returned result, `Except.error` a raised error. -/
def executeOpenApiTool (method : String)
    (parameters : List (String × Json))
    (executionDetails : ExecutionDetails)
    (authHeaders : List (String × String)) (outcome : ApiOutcome) :
    Except String ToolResult :=
  if executionDetails.isDirectReturnValue then
    Except.ok (ToolResult.mk
      [ToolContent.mk "text" executionDetails.directReturnValue] false)
  else
    let tsFalsy :=
      match executionDetails.targetServer with
      | none => true
      | some s => s == ""
    if tsFalsy then
      Except.error ("Target server URL is missing for tool '"
        ++ method ++ "'.")
    else if executionDetails.httpMethod == "" then
      Except.error ("HTTP method is missing for tool '" ++ method
        ++ "'. This should be set for non-direct return tools.")
    else if executionDetails.apiPath == "" then
      Except.error ("API path is missing for tool '" ++ method
        ++ "'. This should be set for non-direct return tools.")
    else
      let url0 := (executionDetails.targetServer).getD ""
        ++ executionDetails.apiPath
      let placed := executionDetails.openapiParameters.foldl
        (processParam parameters)
        (url0, [],
          [("Content-Type", "application/json"),
            ("Accept", "application/json")])
      let requestBody : Option Json :=
        match lookupAssoc parameters "body" with
        | some b => if truthy b then some b else none
        | none => none
      let headers := authHeaders.foldl
        (fun h kv => setAssoc h kv.1 kv.2) placed.2.2
      let _config := RequestConfig.mk executionDetails.httpMethod placed.1
        headers placed.2.1 requestBody
      match outcome with
      | ApiOutcome.success d =>
          Except.ok (ToolResult.mk [ToolContent.mk "text" (jsonStringify d)]
            false)
      | ApiOutcome.respError _status d =>
          Except.ok (ToolResult.mk [ToolContent.mk "text" (jsonStringify d)]
            true)
      | ApiOutcome.noResponse =>
          Except.error ("Error executing tool '" ++ method
            ++ "': rethrown axios error without response")

/-! ## Claim proofs -/

unseal mapOpenApiTypeToZod mapZodProps mapZodTypeList

/-! ### C5: totality and not-found characterisation of the resolver -/

theorem resolveSegs_cons_step {cur next : Json} {s : String}
    {l : List String} (hi : indexable cur = true)
    (hl : lookupDecoded cur s = some next) :
    resolveSegs cur (s :: l) = resolveSegs next l := by
  simp [resolveSegs, hi, hl]

/-- The resolver loop returns not-found exactly when some prefix of the
segment list reaches a node on which the next raw segment fails: the node
is not indexable, or decoding-then-looking-up the segment yields
nothing. -/
theorem resolveSegs_none_iff : ∀ (segs : List String) (cur : Json),
    resolveSegs cur segs = none ↔
      ∃ pre seg rest, segs = pre ++ seg :: rest ∧
        ∃ n, resolveSegs cur pre = some n ∧
          (indexable n = false ∨ lookupDecoded n seg = none) := by
  intro segs
  induction segs with
  | nil =>
    intro cur
    constructor
    · intro h
      simp [resolveSegs] at h
    · rintro ⟨pre, seg, rest, hsplit, -⟩
      exact absurd hsplit (by simp)
  | cons s rest' ih =>
    intro cur
    by_cases hi : indexable cur = true
    · cases hl : lookupDecoded cur s with
      | none =>
        constructor
        · intro _
          exact ⟨[], s, rest', rfl, cur, rfl, Or.inr hl⟩
        · intro _
          simp [resolveSegs, hi, hl]
      | some next =>
        rw [resolveSegs_cons_step hi hl, ih next]
        constructor
        · rintro ⟨pre, seg, rst, hsp, n, hres, hfail⟩
          exact ⟨s :: pre, seg, rst, by rw [List.cons_append, hsp], n,
            by rw [resolveSegs_cons_step hi hl]; exact hres, hfail⟩
        · rintro ⟨pre, seg, rst, hsp, n, hres, hfail⟩
          cases pre with
          | nil =>
            simp only [List.nil_append, List.cons.injEq] at hsp
            obtain ⟨hseq, -⟩ := hsp
            simp only [resolveSegs] at hres
            cases hres
            rcases hfail with hfi | hfl
            · rw [hi] at hfi
              exact absurd hfi (by simp)
            · rw [← hseq, hl] at hfl
              exact absurd hfl (by simp)
          | cons p ps =>
            simp only [List.cons_append, List.cons.injEq] at hsp
            obtain ⟨hps, hrest⟩ := hsp
            subst hps
            rw [resolveSegs_cons_step hi hl] at hres
            exact ⟨ps, seg, rst, hrest, n, hres, hfail⟩
    · have hif : indexable cur = false := by
        cases hx : indexable cur with
        | true => exact absurd hx hi
        | false => rfl
      constructor
      · intro _
        exact ⟨[], s, rest', rfl, cur, rfl, Or.inl hif⟩
      · intro _
        simp [resolveSegs, hif]

/-- Claim C5: `resolveReference` is a total function (it can raise no
exception: the one throwing operation, `decodeURIComponent`, is modelled
as `Option` inside `lookupDecoded` because the source catches the
`URIError`), and it returns not-found (`none`) exactly when the pointer
does not start with the local-document marker `#/`, or traversal of the
decoded segments reaches a node that is not a keyed/indexable structure,
or a segment fails to produce a value there (the decoded key is absent —
a segment whose percent-decoding raises is caught and counts the same
way).  The "final value is `undefined`" case of the source cannot arise
for parsed documents, which contain no `undefined`.  Otherwise it returns
the referenced node, each segment being `~1`/`~0`-unescaped and
percent-decoded before lookup (`lookupDecoded`/`decodeSegment`). -/
theorem c5_resolver_notFound_iff (spec : Json) (ref : String) :
    resolveReference spec ref = none ↔
      refIsLocal ref = false ∨
        ∃ pre seg rest, pointerSegments ref = pre ++ seg :: rest ∧
          ∃ n, resolveSegs spec pre = some n ∧
            (indexable n = false ∨ lookupDecoded n seg = none) := by
  unfold resolveReference
  by_cases hl : refIsLocal ref = true
  · rw [if_pos hl, resolveSegs_none_iff]
    constructor
    · intro h
      exact Or.inr h
    · intro h
      rcases h with h | h
      · rw [hl] at h
        exact absurd h (by simp)
      · exact h
  · have hlf : refIsLocal ref = false := by
      cases hx : refIsLocal ref with
      | true => exact absurd hx hl
      | false => rfl
    rw [if_neg hl]
    simp [hlf]

/-! ### C9: the identifier sanitizer -/

theorem mem_collapseRuns_isWordChar : ∀ (b : Bool) (l : List Char)
    (c : Char), c ∈ collapseRuns b l → isWordChar c = true := by
  intro b l
  induction l generalizing b with
  | nil =>
    intro c hc
    simp [collapseRuns] at hc
  | cons d rest ih =>
    intro c hc
    by_cases hd : isWordChar d = true
    · rw [collapseRuns, if_pos hd] at hc
      rcases List.mem_cons.mp hc with h | h
      · subst h; exact hd
      · exact ih false c h
    · rw [collapseRuns, if_neg hd] at hc
      by_cases hb : b = true
      · rw [hb] at hc
        simp only [if_pos] at hc
        exact ih true c hc
      · have hb' : b = false := by
          cases hx : b with
          | true => exact absurd hx hb
          | false => rfl
        rw [hb'] at hc
        simp only [Bool.false_eq_true, if_false] at hc
        rcases List.mem_cons.mp hc with h | h
        · subst h; decide
        · exact ih true c h

theorem head_dropWhile_not {p : Char → Bool} : ∀ (l : List Char)
    (a : Char), (l.dropWhile p).head? = some a → p a = false := by
  intro l
  induction l with
  | nil =>
    intro a h
    simp [List.dropWhile] at h
  | cons x rest ih =>
    intro a h
    by_cases hx : p x = true
    · rw [List.dropWhile_cons, if_pos hx] at h
      exact ih a h
    · rw [List.dropWhile_cons, if_neg hx] at h
      simp only [List.head?] at h
      cases h
      cases hy : p x with
      | true => exact absurd hy hx
      | false => rfl

theorem mem_dropTrailingUnderscores : ∀ (l : List Char) (c : Char),
    c ∈ dropTrailingUnderscores l → c ∈ l := by
  intro l
  induction l with
  | nil =>
    intro c hc
    simp [dropTrailingUnderscores] at hc
  | cons x rest ih =>
    intro c hc
    rw [dropTrailingUnderscores] at hc
    cases hr : dropTrailingUnderscores rest with
    | nil =>
      rw [hr] at hc
      by_cases hx : x = '_'
      · rw [if_pos hx] at hc
        cases hc
      · rw [if_neg hx] at hc
        rcases List.mem_cons.mp hc with h | h
        · subst h; exact List.mem_cons_self _ _
        · cases h
    | cons r rs =>
      rw [hr] at hc
      rcases List.mem_cons.mp hc with h | h
      · subst h; exact List.mem_cons_self _ _
      · exact List.mem_cons_of_mem _ (ih c (hr ▸ h))

theorem head_dropTrailingUnderscores : ∀ (l : List Char) (a : Char),
    (dropTrailingUnderscores l).head? = some a → l.head? = some a := by
  intro l
  induction l with
  | nil =>
    intro a h
    simp [dropTrailingUnderscores] at h
  | cons x rest _ =>
    intro a h
    rw [dropTrailingUnderscores] at h
    cases hr : dropTrailingUnderscores rest with
    | nil =>
      rw [hr] at h
      by_cases hx : x = '_'
      · rw [if_pos hx] at h
        simp at h
      · rw [if_neg hx] at h
        simp only [List.head?] at h ⊢
        exact h
    | cons r rs =>
      rw [hr] at h
      simp only [List.head?] at h ⊢
      exact h

theorem getLast_dropTrailingUnderscores : ∀ (l : List Char) (a : Char),
    (dropTrailingUnderscores l).getLast? = some a → a ≠ '_' := by
  intro l
  induction l with
  | nil =>
    intro a h
    simp [dropTrailingUnderscores] at h
  | cons x rest ih =>
    intro a h
    rw [dropTrailingUnderscores] at h
    cases hr : dropTrailingUnderscores rest with
    | nil =>
      rw [hr] at h
      by_cases hx : x = '_'
      · rw [if_pos hx] at h
        simp at h
      · rw [if_neg hx] at h
        simp only [List.getLast?] at h
        cases h
        exact hx
    | cons r rs =>
      rw [hr] at h
      rw [List.getLast?_cons_cons] at h
      exact ih a (hr ▸ h)

/-- Claim C9: `sanitizeForMethodName` collapses every maximal run of
non-word characters to a single underscore (that is its definition,
`collapseRuns`) and strips leading and trailing underscores, so its
output consists only of ASCII letters, digits and underscores and
neither starts nor ends with an underscore; the compiler derives every
tool identifier base (from `operationId` when truthy, else from
`verb + "_" + path`) through this function, so every derived base has
the same shape. -/
theorem c9_sanitizer_valid_identifier (s : String) :
    (∀ c ∈ (sanitizeForMethodName s).data, isWordChar c = true) ∧
    (sanitizeForMethodName s).data.head? ≠ some '_' ∧
    (sanitizeForMethodName s).data.getLast? ≠ some '_' := by
  refine ⟨?_, ?_, ?_⟩
  · intro c hc
    have h1 : c ∈ (collapseRuns false s.data).dropWhile (· = '_') :=
      mem_dropTrailingUnderscores _ c hc
    have h2 : c ∈ collapseRuns false s.data :=
      (List.dropWhile_sublist _).subset h1
    exact mem_collapseRuns_isWordChar false s.data c h2
  · intro h
    have h1 := head_dropTrailingUnderscores _ _ h
    have h2 := head_dropWhile_not _ _ h1
    simp at h2
  · intro h
    exact getLast_dropTrailingUnderscores _ _ h rfl

/-! ### C3: cycle-safe mapping -/

/-- A bare reference node `{"$ref": r}`. -/
def refJson (r : String) : Json := Json.obj [("$ref", Json.str r)]

/-- A two-schema document whose reference graph is the cycle A → B → A. -/
def specCyc : Json := Json.obj
  [("A", Json.obj [("type", Json.str "object"),
      ("properties", Json.obj [("b", refJson "#/B")])]),
   ("B", Json.obj [("type", Json.str "object"),
      ("properties", Json.obj [("a", refJson "#/A")])])]

/-- A document in which two sibling properties of S both reference X. -/
def specSib : Json := Json.obj
  [("X", Json.obj [("type", Json.str "string")]),
   ("S", Json.obj [("type", Json.str "object"),
      ("properties", Json.obj [("p", refJson "#/X"), ("q", refJson "#/X")])])]

/-- Claim C3: `mapOpenApiTypeToZod` is a total function (its acceptance as
a well-founded definition is the termination proof: each `$ref` descent
shrinks the set of unvisited reference strings, every other descent
shrinks the node), and on the cyclic document `specCyc` it produces a
finite structure carrying the circular-reference sentinel exactly at the
edge that closes the cycle (re-entering `#/A` under the path
`#/A → #/B`), while on `specSib` the reference `#/X`, entered on the
sibling branch `p`, is mapped again on branch `q` with no sentinel,
because every branch recurses with its own copy of the visited set. -/
theorem c3_cycle_safe_mapping :
    mapOpenApiTypeToZod (refJson "#/A") specCyc [] =
      ZodType.objectT
        [("b", ZodType.optionalT (ZodType.objectT
          [("a", ZodType.optionalT
            (ZodType.describeT ZodType.anyT "Circular reference: #/A"))]
          false))]
        false ∧
    mapOpenApiTypeToZod (refJson "#/S") specSib [] =
      ZodType.objectT
        [("p", ZodType.optionalT (ZodType.strT [])),
         ("q", ZodType.optionalT (ZodType.strT []))]
        false :=
  ⟨rfl, rfl⟩

/-! ### C4: security classification per operation -/

/-- Claim C4: per-operation security classification.  An operation
without a `security` field inherits the document-level classification
verbatim (in particular, under a document-level OIDC requirement every
such operation classifies `requiresExternalAuth = true` with the same
captured URL); an operation with an empty requirement list classifies as
no-auth even when the document-level default requires auth; and an
operation with a non-empty list is classified by the scan of that list
alone, independently of the document-level default.  The final conjunct
ties the classifier to the compiler: every descriptor `buildTool`
produces carries exactly the URL the classification of its operation's
`security` field captured. -/
theorem c4_security_classification :
    (∀ (spec : Json) (g : Bool × Option String),
      classifyOperation spec g none = g) ∧
    (∀ (spec : Json) (g : Bool × Option String),
      classifyOperation spec g (some (Json.arr [])) = (false, none)) ∧
    (∀ (spec : Json) (g g' : Bool × Option String) (v : Json),
      classifyOperation spec g (some v) = classifyOperation spec g' (some v)) ∧
    (∀ (spec : Json) (g : Bool × Option String) (l : List Json),
      l ≠ [] → truthyOpt (secSchemes spec) = true →
      classifyOperation spec g (some (Json.arr l)) =
        scanSecurityRequirements spec l) ∧
    (∀ (spec : Json) (u : Option String),
      computeGlobalAuth spec = (true, u) →
      classifyOperation spec (computeGlobalAuth spec) none = (true, u)) ∧
    (∀ (productName specPath : String) (spec : Json)
      (globalAuth : Bool × Option String) (targetServer : Option String)
      (pathParams : List Json) (apiPath httpMethod : String)
      (operation : Json),
      (buildTool productName specPath spec globalAuth targetServer
          pathParams apiPath httpMethod operation
        ).executionDetails.openIdConnectUrl =
        (classifyOperation spec globalAuth
          (getField operation "security")).2) := by
  refine ⟨?_, ?_, ?_, ?_, ?_, ?_⟩
  · intro spec g
    rfl
  · intro spec g
    simp [classifyOperation, asArr]
  · intro spec g g' v
    rfl
  · intro spec g l hl hs
    have hlen : 0 < l.length := List.length_pos.mpr hl
    simp [classifyOperation, asArr, hlen, hs]
  · intro spec u hg
    rw [(rfl : classifyOperation spec (computeGlobalAuth spec) none
      = computeGlobalAuth spec), hg]
    rfl
  · intro productName specPath spec globalAuth targetServer pathParams
      apiPath httpMethod operation
    rfl

/-- A document with a document-level OIDC requirement. -/
def specOidc : Json := Json.obj
  [("security", Json.arr [Json.obj [("oauth", Json.arr [])]]),
   ("components", Json.obj [("securitySchemes", Json.obj
     [("oauth", Json.obj [("type", Json.str "openIdConnect"),
        ("openIdConnectUrl", Json.str "https://issuer/oidc")])])])]

theorem c4_security_classification_witness :
    classifyOperation specOidc (computeGlobalAuth specOidc) none
        = (true, some "https://issuer/oidc") ∧
    classifyOperation specOidc (computeGlobalAuth specOidc)
        (some (Json.arr [])) = (false, none) ∧
    classifyOperation specOidc (true, some "elsewhere")
        (some (Json.arr [Json.obj [("missing", Json.arr [])]])) =
      scanSecurityRequirements specOidc [Json.obj [("missing", Json.arr [])]] := by
  refine ⟨?_, ?_, ?_⟩
  · exact c4_security_classification.2.2.2.2.1 specOidc
      (some "https://issuer/oidc") rfl
  · exact c4_security_classification.2.1 specOidc _
  · exact c4_security_classification.2.2.2.1 specOidc _ _ (by simp) rfl

/-! ### C10: the `api_` naming invariant -/

theorem buildTool_method_shape (productName specPath : String) (spec : Json)
    (globalAuth : Bool × Option String) (targetServer : Option String)
    (pathParams : List Json) (apiPath httpMethod : String)
    (operation : Json) :
    (∃ base, (buildTool productName specPath spec globalAuth targetServer
        pathParams apiPath httpMethod operation).method =
      "api_" ++ sanitizeForMethodName base) ∧
    (buildTool productName specPath spec globalAuth targetServer
        pathParams apiPath httpMethod operation).category =
      "api_" ++ productName ∧
    (buildTool productName specPath spec globalAuth targetServer
        pathParams apiPath httpMethod operation).productName =
      productName := by
  refine ⟨?_, rfl, rfl⟩
  cases ho : getStrTruthy operation "operationId" with
  | some oid =>
    refine ⟨oid, ?_⟩
    simp [buildTool, ho]
  | none =>
    refine ⟨httpMethod ++ "_" ++ apiPath, ?_⟩
    simp [buildTool, ho]

theorem mem_toolsForSpec {productName specPath : String} {spec : Json}
    {tool : OpenApiTool} (h : tool ∈ toolsForSpec productName specPath spec) :
    ∃ globalAuth targetServer pathParams apiPath httpMethod operation,
      tool = buildTool productName specPath spec globalAuth targetServer
        pathParams apiPath httpMethod operation := by
  unfold toolsForSpec at h
  by_cases hc : (truthy spec && isTypeofObject spec
      && truthyField spec "paths") = true
  · rw [if_pos hc] at h
    simp only [List.mem_flatten, List.mem_map] at h
    obtain ⟨l, ⟨kv, _hkv, hl⟩, hmem⟩ := h
    by_cases ht : truthy kv.2 = true
    · rw [if_pos ht] at hl
      subst hl
      unfold toolsForPathItem at hmem
      rw [List.mem_filterMap] at hmem
      obtain ⟨kv2, _hkv2, hb⟩ := hmem
      by_cases hv : (httpVerbs.contains kv2.1 && truthy kv2.2) = true
      · rw [if_pos hv] at hb
        cases hb
        exact ⟨_, _, _, _, _, _, rfl⟩
      · rw [if_neg hv] at hb
        cases hb
    · rw [if_neg ht] at hl
      subst hl
      cases hmem
  · rw [if_neg hc] at h
    cases h

/-- Claim C10: every descriptor produced by `generateOpenApiTools` has a
method name that is literally `"api_"` followed by a sanitized base name,
and a category that is `"api_"` followed by the product name; hence every
generated method name starts with the letter `a`. -/
theorem c10_api_naming_invariant
    (specData : List (String × List (String × Json))) (tool : OpenApiTool)
    (h : tool ∈ generateOpenApiTools specData) :
    (∃ base, tool.method = "api_" ++ sanitizeForMethodName base) ∧
    tool.category = "api_" ++ tool.productName ∧
    tool.method.data.head? = some 'a' := by
  unfold generateOpenApiTools at h
  simp only [List.mem_flatten, List.mem_map] at h
  obtain ⟨l, ⟨prod, _hprod, hl⟩, hmem⟩ := h
  subst hl
  simp only [List.mem_flatten, List.mem_map] at hmem
  obtain ⟨l2, ⟨sp, _hsp, hl2⟩, hmem2⟩ := hmem
  subst hl2
  obtain ⟨g, ts, pp, ap, hm, op, htool⟩ := mem_toolsForSpec hmem2
  subst htool
  obtain ⟨⟨base, hbase⟩, hcat, hprodn⟩ :=
    buildTool_method_shape prod.1 sp.1 sp.2 g ts pp ap hm op
  refine ⟨⟨base, hbase⟩, by rw [hcat, hprodn], ?_⟩
  rw [hbase]
  rw [String.data_append]
  rfl

/-- A one-operation document for concrete evaluation. -/
def opW : Json := Json.obj
  [("operationId", Json.str "getX"), ("summary", Json.str "Get X"),
   ("description", Json.str "Gets X")]

def docW : Json := Json.obj
  [("paths", Json.obj [("/x", Json.obj [("get", opW)])])]

def specDataW : List (String × List (String × Json)) :=
  [("prod", [("spec/path", docW)])]

def toolW : OpenApiTool :=
  OpenApiTool.mk "api_getX" "Get X" "Gets X" (ZodType.objectT [] false)
    "api_prod" "prod" "spec/path"
    (ExecutionDetails.mk false "" none "get" "/x" [] none none)

theorem c10_api_naming_invariant_witness :
    (∃ base, toolW.method = "api_" ++ sanitizeForMethodName base) ∧
    toolW.category = "api_" ++ toolW.productName ∧
    toolW.method.data.head? = some 'a' :=
  c10_api_naming_invariant specDataW toolW
    (by
      have hgen : generateOpenApiTools specDataW = [toolW] := rfl
      rw [hgen]
      exact List.mem_singleton.mpr rfl)

/-! ### C1: token reuse and the absent-expiry case -/

/-- Claim C1, counterexample: after a successful exchange with no
`expires_in` hint the state holds the token with an absent expiry
(here `⟨some "tok", none⟩`); the claim says every subsequent
`getValidAccessToken` call returns the same bearer string and triggers no
further exchange, but the very next call performs a new exchange
(`exchanged = true`) and returns whatever that exchange yields
(`"tok2" ≠ "tok"`), because the reuse guard requires a truthy stored
expiry. -/
theorem c1_counterexample :
    getValidAccessToken (TokenState.mk (some "tok") none) 0
        (TokenExchangeOutcome.success (TokenData.mk (some "tok2") none)) =
      TokenFetchResult.mk (Except.ok "tok2")
        (TokenState.mk (some "tok2") none) true ∧
    "tok2" ≠ "tok" :=
  ⟨rfl, by decide⟩

theorem canReuse_of_absent_expiry (tok : Option String) (now : Int) :
    canReuse (TokenState.mk tok none) now = false := by
  cases tok <;> rfl

theorem exchanged_of_no_reuse {st : TokenState} {now : Int}
    (outcome : TokenExchangeOutcome) (h : canReuse st now = false) :
    (getValidAccessToken st now outcome).exchanged = true := by
  unfold getValidAccessToken
  rw [h]
  simp only [Bool.false_eq_true, if_false]
  cases outcome with
  | success d =>
    cases hd : d.access_token with
    | some tok =>
      simp only [hd]
      by_cases ht : (tok == "") = true
      · rw [if_pos ht]
      · rw [if_neg ht]
    | none => simp only [hd]
  | respError status detail => rfl
  | noResponse => rfl

/-- Claim C1, amended: (a) an existing token is reused without an
exchange whenever both stored fields are truthy and
`now < expiry - 30_000` (every token the manager stores is a nonempty
string, so the truthiness conditions only exclude an epoch-zero expiry);
(b) when a successful exchange carries no `expires_in` hint, the token is
stored with an *absent* expiry, and every subsequent call — with any
outcome, absent invalidation or not — performs a new token exchange: a
token without stored expiry is never reused. -/
theorem c1_token_reuse_amended :
    (∀ (tok : String) (exp now : Int) (outcome : TokenExchangeOutcome),
      tok ≠ "" → exp ≠ 0 → now < exp - 30 * 1000 →
      getValidAccessToken (TokenState.mk (some tok) (some exp)) now outcome =
        TokenFetchResult.mk (Except.ok tok)
          (TokenState.mk (some tok) (some exp)) false) ∧
    (∀ (st : TokenState) (now : Int) (d : TokenData) (tok : String),
      canReuse st now = false → d.access_token = some tok → tok ≠ "" →
      d.expires_in = none →
      getValidAccessToken st now (TokenExchangeOutcome.success d) =
        TokenFetchResult.mk (Except.ok tok)
          (TokenState.mk (some tok) none) true) ∧
    (∀ (tok : String) (now2 : Int) (outcome2 : TokenExchangeOutcome),
      (getValidAccessToken (TokenState.mk (some tok) none) now2
        outcome2).exchanged = true) := by
  refine ⟨?_, ?_, ?_⟩
  · intro tok exp now outcome htok hexp hlt
    have hcr : canReuse (TokenState.mk (some tok) (some exp)) now = true := by
      simp [canReuse, htok, hexp]
      omega
    unfold getValidAccessToken
    rw [hcr]
    simp
  · intro st now d tok hcr hat htok hei
    unfold getValidAccessToken
    rw [hcr]
    simp only [Bool.false_eq_true, if_false, hat]
    have ht : (tok == "") = false := by
      cases hx : (tok == "") with
      | true => exact absurd (eq_of_beq hx) htok
      | false => rfl
    rw [ht]
    simp [hei]
  · intro tok now2 outcome2
    exact exchanged_of_no_reuse outcome2 (canReuse_of_absent_expiry _ _)

theorem c1_token_reuse_amended_witness :
    getValidAccessToken (TokenState.mk (some "t") (some 100000)) 0
        TokenExchangeOutcome.noResponse =
      TokenFetchResult.mk (Except.ok "t")
        (TokenState.mk (some "t") (some 100000)) false ∧
    getValidAccessToken (TokenState.mk none none) 0
        (TokenExchangeOutcome.success (TokenData.mk (some "t2") none)) =
      TokenFetchResult.mk (Except.ok "t2")
        (TokenState.mk (some "t2") none) true ∧
    (getValidAccessToken (TokenState.mk (some "t2") none) 99
        TokenExchangeOutcome.noResponse).exchanged = true := by
  refine ⟨?_, ?_, ?_⟩
  · exact c1_token_reuse_amended.1 "t" 100000 0 TokenExchangeOutcome.noResponse
      (by decide) (by decide) (by decide)
  · exact c1_token_reuse_amended.2.1 (TokenState.mk none none) 0
      (TokenData.mk (some "t2") none) "t2" rfl rfl (by decide) rfl
  · exact c1_token_reuse_amended.2.2 "t2" 99 TokenExchangeOutcome.noResponse

/-! ### C8: token invalidation on a downstream 401 -/

/-- Claim C8: whenever `makeRequest` receives a 401 response from the
downstream API (after a successful token acquisition — otherwise no
request is issued), both stored token fields are reset to the absent
state before the error is raised, and from that absent state every
subsequent `getValidAccessToken` call performs a fresh exchange. -/
theorem c8_invalidate_on_401 (st : TokenState) (now : Int)
    (tokenOutcome : TokenExchangeOutcome) (d : Json) (tok : String)
    (hok : (getValidAccessToken st now tokenOutcome).result = Except.ok tok) :
    (makeRequest st now tokenOutcome (ApiOutcome.respError 401 d)).2 =
      TokenState.mk none none ∧
    (∃ e, (makeRequest st now tokenOutcome
      (ApiOutcome.respError 401 d)).1 = Except.error e) ∧
    (∀ (now2 : Int) (outcome2 : TokenExchangeOutcome),
      (getValidAccessToken (TokenState.mk none none) now2
        outcome2).exchanged = true) := by
  refine ⟨?_, ?_, ?_⟩
  · unfold makeRequest
    simp [hok]
  · unfold makeRequest
    simp [hok]
  · intro now2 outcome2
    exact exchanged_of_no_reuse outcome2 rfl

theorem c8_invalidate_on_401_witness :
    (makeRequest (TokenState.mk (some "t") (some 100000)) 0
      TokenExchangeOutcome.noResponse (ApiOutcome.respError 401 Json.null)).2 =
      TokenState.mk none none ∧
    (∃ e, (makeRequest (TokenState.mk (some "t") (some 100000)) 0
      TokenExchangeOutcome.noResponse
      (ApiOutcome.respError 401 Json.null)).1 = Except.error e) := by
  have h := c8_invalidate_on_401 (TokenState.mk (some "t") (some 100000)) 0
    TokenExchangeOutcome.noResponse Json.null "t" rfl
  exact ⟨h.1, h.2.1⟩

/-! ### C2 and C6: the spec cache -/

theorem lookupAssoc_setAssoc_self {α : Type} (c : List (String × α))
    (k : String) (v : α) : lookupAssoc (setAssoc c k v) k = some v := by
  induction c with
  | nil => simp [setAssoc, lookupAssoc]
  | cons kv rest ih =>
    obtain ⟨k', v'⟩ := kv
    by_cases hk : (k' == k) = true
    · simp [setAssoc, hk, lookupAssoc]
    · simp [setAssoc, hk, lookupAssoc, ih]

/-- Claim C2, counterexample: a client configured with `cacheTTL = -1`
does not get caching disabled — the constructor replaces every negative
configured TTL with the 5-minute default, so the very first call writes a
cache entry (and a later call within the window would read it),
contradicting "neither reads from nor writes to the spec cache" for
`cacheTTL ≤ 0`. -/
theorem c2_cache_disabled_counterexample :
    initCacheTTL (some (-1)) = 300000 ∧
    (getSpecContentWithCache (initCacheTTL (some (-1))) [] 0 "p" "s"
        "content").2.1 =
      [("p::s", SpecCacheEntry.mk "content" 300000)] :=
  ⟨rfl, rfl⟩

/-- Claim C2, amended: caching is disabled exactly for a configured
`cacheTTL` of `0` (a negative configured value is replaced by the 300000
ms default at construction, which *enables* caching); whenever the
effective TTL is `≤ 0` — which the constructor only ever produces as `0`
— every call returns the fresh upstream content, leaves the cache
untouched, and performs the upstream fetch. -/
theorem c2_cache_disabled_amended :
    (∀ (ttl : Int), ttl ≤ 0 →
      ∀ (cache : List (String × SpecCacheEntry)) (now : Int)
        (p s fetched : String),
        getSpecContentWithCache ttl cache now p s fetched =
          (fetched, cache, true)) ∧
    initCacheTTL (some 0) = 0 := by
  refine ⟨?_, rfl⟩
  intro ttl hle cache now p s fetched
  have hng : ¬(ttl > 0) := by omega
  unfold getSpecContentWithCache
  simp [hng]

theorem c2_cache_disabled_amended_witness :
    getSpecContentWithCache (initCacheTTL (some 0))
        [("p::s", SpecCacheEntry.mk "old" 999)] 5 "p" "s" "fresh" =
      ("fresh", [("p::s", SpecCacheEntry.mk "old" 999)], true) :=
  c2_cache_disabled_amended.1 (initCacheTTL (some 0)) (by decide)
    [("p::s", SpecCacheEntry.mk "old" 999)] 5 "p" "s" "fresh"

/-- Claim C6: with a positive TTL, a cold call fetches upstream and
stores the content with expiry `now + TTL`; a second call for the same
key before that expiry returns the cached (identical) content without a
fetch and without changing the cache; and a third call at or after the
expiry fetches upstream again.  Together: two calls within the window
cause exactly one upstream fetch, a later call a second one. -/
theorem c6_cache_hit_and_expiry (ttl : Int)
    (cache : List (String × SpecCacheEntry)) (t1 t2 t3 : Int)
    (p s f1 f2 f3 : String) (hpos : ttl > 0)
    (hcold : lookupAssoc cache (p ++ "::" ++ s) = none)
    (h2 : t2 < t1 + ttl) (h3 : t1 + ttl ≤ t3) :
    getSpecContentWithCache ttl cache t1 p s f1 =
      (f1, setAssoc cache (p ++ "::" ++ s) (SpecCacheEntry.mk f1 (t1 + ttl)),
        true) ∧
    getSpecContentWithCache ttl
        (setAssoc cache (p ++ "::" ++ s) (SpecCacheEntry.mk f1 (t1 + ttl)))
        t2 p s f2 =
      (f1, setAssoc cache (p ++ "::" ++ s) (SpecCacheEntry.mk f1 (t1 + ttl)),
        false) ∧
    (getSpecContentWithCache ttl
        (setAssoc cache (p ++ "::" ++ s) (SpecCacheEntry.mk f1 (t1 + ttl)))
        t3 p s f3).1 = f3 ∧
    (getSpecContentWithCache ttl
        (setAssoc cache (p ++ "::" ++ s) (SpecCacheEntry.mk f1 (t1 + ttl)))
        t3 p s f3).2.2 = true := by
  have hhit := lookupAssoc_setAssoc_self cache (p ++ "::" ++ s)
    (SpecCacheEntry.mk f1 (t1 + ttl))
  have hno : ¬(t3 < t1 + ttl) := by omega
  refine ⟨?_, ?_, ?_, ?_⟩
  · unfold getSpecContentWithCache
    simp [hpos, hcold]
  · unfold getSpecContentWithCache
    simp [hpos, hhit, h2]
  · unfold getSpecContentWithCache
    simp [hpos, hhit, hno]
  · unfold getSpecContentWithCache
    simp [hpos, hhit, hno]

theorem c6_cache_hit_and_expiry_witness :
    getSpecContentWithCache 5000 [] 0 "p" "s" "a" =
      ("a", [("p::s", SpecCacheEntry.mk "a" 5000)], true) ∧
    getSpecContentWithCache 5000 [("p::s", SpecCacheEntry.mk "a" 5000)]
        4999 "p" "s" "ignored" =
      ("a", [("p::s", SpecCacheEntry.mk "a" 5000)], false) ∧
    (getSpecContentWithCache 5000 [("p::s", SpecCacheEntry.mk "a" 5000)]
        5000 "p" "s" "b").1 = "b" ∧
    (getSpecContentWithCache 5000 [("p::s", SpecCacheEntry.mk "a" 5000)]
        5000 "p" "s" "b").2.2 = true := by
  have h := c6_cache_hit_and_expiry 5000 [] 0 4999 5000 "p" "s" "a"
    "ignored" "b" (by decide) rfl (by decide) (by decide)
  exact h

/-! ### C7: executor error classification -/

/-- Claim C7: for a non-direct-return descriptor whose execution fields
are present (so the request is actually issued), a non-2xx response makes
`executeOpenApiTool` *return* a result with `isError` set whose text is
the stringified backend response body, while an absent response (network
failure) makes it raise; and when the request cannot be constructed
locally (here: a missing/empty target server, the first of the three
fail-fast validations), the error is raised for every outcome. -/
theorem c7_executor_error_classification (method : String)
    (parameters : List (String × Json)) (ed : ExecutionDetails)
    (authHeaders : List (String × String)) (d : Json) (status : Nat)
    (hnd : ed.isDirectReturnValue = false) :
    ((∃ ts, ed.targetServer = some ts ∧ ts ≠ "") → ed.httpMethod ≠ "" →
      ed.apiPath ≠ "" →
      executeOpenApiTool method parameters ed authHeaders
          (ApiOutcome.respError status d) =
        Except.ok (ToolResult.mk [ToolContent.mk "text" (jsonStringify d)]
          true) ∧
      ∃ msg, executeOpenApiTool method parameters ed authHeaders
          ApiOutcome.noResponse = Except.error msg) ∧
    ((ed.targetServer = none ∨ ed.targetServer = some "") →
      ∀ outcome, ∃ msg,
        executeOpenApiTool method parameters ed authHeaders outcome =
          Except.error msg) := by
  constructor
  · rintro ⟨ts, hts, htsne⟩ hhm hap
    have htsf : (match ed.targetServer with
        | none => true
        | some s => s == "") = false := by
      rw [hts]
      simp [htsne]
    have hhm' : (ed.httpMethod == "") = false := by
      cases hx : (ed.httpMethod == "") with
      | true => exact absurd (eq_of_beq hx) hhm
      | false => rfl
    have hap' : (ed.apiPath == "") = false := by
      cases hx : (ed.apiPath == "") with
      | true => exact absurd (eq_of_beq hx) hap
      | false => rfl
    constructor
    · unfold executeOpenApiTool
      simp [hnd, htsf, hhm', hap']
    · unfold executeOpenApiTool
      simp [hnd, htsf, hhm', hap']
  · intro hts outcome
    have htsf : (match ed.targetServer with
        | none => true
        | some s => s == "") = true := by
      rcases hts with h | h <;> rw [h] <;> rfl
    unfold executeOpenApiTool
    simp [hnd, htsf]

/-- A concrete valid descriptor for the executor. -/
def edW : ExecutionDetails :=
  ExecutionDetails.mk false "" (some "http://backend") "get" "/x" [] none none

/-- A concrete descriptor with a missing target server. -/
def edBroken : ExecutionDetails :=
  ExecutionDetails.mk false "" none "get" "/x" [] none none

theorem c7_executor_error_classification_witness :
    executeOpenApiTool "m" [] edW [] (ApiOutcome.respError 500 Json.null) =
      Except.ok (ToolResult.mk [ToolContent.mk "text" "null"] true) ∧
    (∃ msg, executeOpenApiTool "m" [] edW [] ApiOutcome.noResponse =
      Except.error msg) ∧
    (∃ msg, executeOpenApiTool "m" [] edBroken []
        (ApiOutcome.success Json.null) = Except.error msg) := by
  have h := c7_executor_error_classification "m" [] edW [] Json.null 500 rfl
  have h1 := h.1 ⟨"http://backend", rfl, by decide⟩ (by decide) (by decide)
  have h2 := c7_executor_error_classification "m" [] edBroken [] Json.null 500
    rfl
  exact ⟨h1.1, h1.2, h2.2 (Or.inl rfl) (ApiOutcome.success Json.null)⟩
